import Mathlib

/-! # private-isu (Go): feed assembly, single-post assembly and image store

A shallow embedding of `webapp/golang/app.go`.

* The three MySQL tables are lists of rows in the engine's scan order.  A query is a
  list comprehension over them.  `ORDER BY` is a stable sort of the rows in scan
  order: SQL leaves the order of rows with equal sort keys to the engine, and the
  row order of the store stands for that choice.
* `db.Get` returns the first row of a result set and `sql.ErrNoRows` on an empty one.
* `time.Time` values are natural numbers (seconds), Go `int` values are integers,
  byte slices are lists of naturals.
* The file system under `ImageDir` is an association list from paths to contents
  together with the set of paths at which `os.WriteFile` fails.
* A handler is a function from the store, the session and the request data to the
  response it writes (and the new store and session where it changes them).  A handler
  that returns without writing anything answers `200 OK` with an empty body, as
  `net/http` does.
-/

set_option linter.dupNamespace false

namespace PrivateIsu

/-! ## Constants and data model -/

abbrev Bytes := List Nat

abbrev Time := Nat

def postsPerPage : Int := 20

def UploadLimit : Nat := 10 * 1024 * 1024

def ImageDir : String := "../public/image/"

/-- Go struct `User`; also the row type of table `users`. -/
structure User where
  ID : Int
  AccountName : String
  Passhash : String
  Authority : Int
  DelFlg : Int
  CreatedAt : Time
deriving DecidableEq, Repr

/-- Go zero value `User{}`. -/
def User.zero : User := ⟨0, "", "", 0, 0, 0⟩

/-- Go struct `Comment`. -/
structure Comment where
  ID : Int
  PostID : Int
  UserID : Int
  Comment : String
  CreatedAt : Time
  User : User
deriving DecidableEq, Repr

/-- Go struct `Post`. -/
structure Post where
  ID : Int
  UserID : Int
  Imgdata : Bytes
  Body : String
  Mime : String
  CreatedAt : Time
  CommentCount : Int
  Comments : List Comment
  User : User
  CSRFToken : String
deriving DecidableEq, Repr

/-- Go zero value `Post{}`. -/
def Post.zero : Post := ⟨0, 0, [], "", "", 0, 0, [], User.zero, ""⟩

/-- A row of table `posts`. -/
structure PostRow where
  id : Int
  user_id : Int
  mime : String
  imgdata : Bytes
  body : String
  created_at : Time
deriving DecidableEq, Repr

/-- A row of table `comments`. -/
structure CommentRow where
  id : Int
  post_id : Int
  user_id : Int
  comment : String
  created_at : Time
deriving DecidableEq, Repr

/-- The database and the image directory. -/
structure Store where
  users : List User
  posts : List PostRow
  comments : List CommentRow
  /-- The `AUTO_INCREMENT` counter of table `posts`. -/
  nextPostID : Int
  /-- The files under `ImageDir`, most recently written first. -/
  files : List (String × Bytes)
  /-- The paths at which `os.WriteFile` returns an error. -/
  writeFails : String → Bool

inductive DBError where
  | ErrNoRows
  | Other (msg : String)
deriving DecidableEq, Repr

/-- The statements whose number the batch loader is specified by. -/
inductive Query where
  | selectComments (postIDs : List Int) (limitPerPost : Int)
  | selectUsers (userIDs : List Int)
deriving DecidableEq, Repr

/-- The gorilla session of a request: the values the handlers read and write. -/
structure Session where
  user_id : Option Int
  csrf_token : Option String
  notice : Option String
deriving DecidableEq, Repr

/-! ## Go maps with integer keys -/

/-- A Go `map[int]β` as an association list without repeated keys. -/
abbrev GoMap (β : Type) := List (Int × β)

/-- The two-valued lookup `v, exists := m[k]`. -/
def GoMap.get? {β : Type} (m : GoMap β) (k : Int) : Option β :=
  match m with
  | [] => none
  | (k1, v) :: rest => if k1 = k then some v else GoMap.get? rest k

/-- The assignment `m[k] = v`. -/
def GoMap.set {β : Type} (m : GoMap β) (k : Int) (v : β) : GoMap β :=
  match m with
  | [] => [(k, v)]
  | (k1, v1) :: rest => if k1 = k then (k, v) :: rest else (k1, v1) :: GoMap.set rest k v

/-- The lookup `m[k]` of a `map[int][]Comment`: `nil` for a missing key. -/
def GoMap.getSlice {β : Type} (m : GoMap (List β)) (k : Int) : List β :=
  (GoMap.get? m k).getD []

/-! ## Row-store primitives -/

/-- The call `db.Get`: the first row, or `sql.ErrNoRows`. -/
def dbGet {α : Type} (rows : List α) : Except DBError α :=
  match rows with
  | [] => .error .ErrNoRows
  | r :: _ => .ok r

/-- The order `ORDER BY key DESC`. -/
def byDesc {α : Type} (key : α → Time) (a b : α) : Prop := key b ≤ key a

instance byDesc.decidable {α : Type} (key : α → Time) : DecidableRel (byDesc key) :=
  fun a b => inferInstanceAs (Decidable (key b ≤ key a))

instance byDesc.isTotal {α : Type} (key : α → Time) : IsTotal α (byDesc key) :=
  ⟨fun a b => (Nat.le_total (key b) (key a))⟩

instance byDesc.isTrans {α : Type} (key : α → Time) : IsTrans α (byDesc key) :=
  ⟨fun _ _ _ h1 h2 => Nat.le_trans h2 h1⟩

/-- The order `ORDER BY sub.post_id, sub.created_at DESC`. -/
def postThenCreatedDesc (a b : CommentRow) : Prop :=
  a.post_id < b.post_id ∨ (a.post_id = b.post_id ∧ b.created_at ≤ a.created_at)

instance postThenCreatedDesc.decidable : DecidableRel postThenCreatedDesc :=
  fun a b => inferInstanceAs
    (Decidable (a.post_id < b.post_id ∨ (a.post_id = b.post_id ∧ b.created_at ≤ a.created_at)))

/-- The rows of `posts p JOIN users u ON p.user_id = u.id`. -/
def joinPostsUsers (s : Store) : List (PostRow × User) :=
  (s.posts.map fun p => (s.users.filter fun u => decide (p.user_id = u.ID)).map fun u => (p, u)).flatten

/-- Scanning `p.id, p.user_id, p.body, p.mime, p.created_at` and the six `user.*` columns into
a `Post`: `imgdata` is not selected. -/
def scanPostUser (r : PostRow × User) : Post :=
  { ID := r.1.id, UserID := r.1.user_id, Imgdata := [], Body := r.1.body, Mime := r.1.mime,
    CreatedAt := r.1.created_at, CommentCount := 0, Comments := [], User := r.2, CSRFToken := "" }

/-- MySQL rejects `LIMIT ?` with a negative argument. -/
def limitRows {α : Type} (rows : List α) (limit : Int) : Except DBError (List α) :=
  if limit < 0 then .error (.Other "LIMIT") else .ok (rows.take limit.toNat)

/-- The function `getLatestPosts`. -/
def getLatestPosts (s : Store) (limit : Int) : Except DBError (List Post) :=
  (limitRows
    (((joinPostsUsers s).filter fun r => decide (r.2.DelFlg = 0)).insertionSort
      (byDesc fun r => r.1.created_at)) limit).map (List.map scanPostUser)

/-- The post query of `getPosts`: as `getLatestPosts`, with `p.created_at <= ?`. -/
def selectPostsBefore (s : Store) (t : Time) (limit : Int) : Except DBError (List Post) :=
  (limitRows
    (((joinPostsUsers s).filter fun r =>
        decide (r.1.created_at ≤ t) && decide (r.2.DelFlg = 0)).insertionSort
      (byDesc fun r => r.1.created_at)) limit).map (List.map scanPostUser)

/-! ## Batch loader -/

/-- The window `ROW_NUMBER() OVER (PARTITION BY c.post_id ORDER BY c.created_at DESC)` over
rows already in `created_at DESC` order; `seen` holds the rows numbered so far. -/
def rowNumber (seen : List CommentRow) : List CommentRow → List (CommentRow × Int)
  | [] => []
  | c :: cs =>
    (c, ((seen.filter fun d => decide (d.post_id = c.post_id)).length : Int) + 1)
      :: rowNumber (c :: seen) cs

/-- Scanning `id, post_id, user_id, comment, created_at` into a `Comment`. -/
def scanComment (c : CommentRow) : Comment :=
  { ID := c.id, PostID := c.post_id, UserID := c.user_id, Comment := c.comment,
    CreatedAt := c.created_at, User := User.zero }

/-- The statement of `getCommentsForPosts`. -/
def selectComments (s : Store) (postIDs : List Int) (limitPerPost : Int) : List CommentRow :=
  let sub := rowNumber []
    ((s.comments.filter fun c => decide (c.post_id ∈ postIDs)).insertionSort
      (byDesc fun c => c.created_at))
  ((sub.filter fun x => decide (x.2 ≤ limitPerPost)).map Prod.fst).insertionSort
    postThenCreatedDesc

/-- The function `getCommentsForPosts`, with the statements it issues. -/
def getCommentsForPosts (s : Store) (postIDs : List Int) (limitPerPost : Int) :
    Except DBError (List Comment) × List Query :=
  if postIDs.length = 0 then (.ok [], [])
  else (.ok ((selectComments s postIDs limitPerPost).map scanComment),
        [Query.selectComments postIDs limitPerPost])

/-- Scanning `id, account_name` into a `User`. -/
def scanUserName (u : User) : User := { User.zero with ID := u.ID, AccountName := u.AccountName }

/-- The function `getUsersByIDs`, with the statements it issues. -/
def getUsersByIDs (s : Store) (userIDs : List Int) : Except DBError (List User) × List Query :=
  if userIDs.length = 0 then (.ok [], [])
  else (.ok ((s.users.filter fun u => decide (u.ID ∈ userIDs)).map scanUserName),
        [Query.selectUsers userIDs])

/-- The keys of `commentUserIDsMap`. -/
def commentUserIDs (comments : List Comment) : List Int :=
  (comments.map fun c => c.UserID).dedup

/-- The map `commentUserMap`. -/
def commentUserMap (commentUsers : List User) : GoMap User :=
  commentUsers.foldl (fun m u => GoMap.set m u.ID u) []

/-- The body of the loop over `comments`: `comments[i].User` is set where the author exists in
the map, and left as it is otherwise. -/
def attachUser (m : GoMap User) (c : Comment) : Comment :=
  match GoMap.get? m c.UserID with
  | some user => { c with User := user }
  | none => c

/-- The loop that sets `comments[i].User` where the author was found. -/
def attachUsers (m : GoMap User) (comments : List Comment) : List Comment :=
  comments.map (attachUser m)

/-- The map `postCommentsMap`. -/
def groupByPost (comments : List Comment) : GoMap (List Comment) :=
  comments.foldl (fun m c => GoMap.set m c.PostID (GoMap.getSlice m c.PostID ++ [c])) []

/-- The function `fetchCommentsAndUsers`, with the statements it issues. -/
def fetchCommentsAndUsers (s : Store) (postIDs : List Int) (limitPerPost : Int) :
    Except DBError (GoMap (List Comment)) × List Query :=
  match getCommentsForPosts s postIDs limitPerPost with
  | (.error err, q1) => (.error err, q1)
  | (.ok comments, q1) =>
    match getUsersByIDs s (commentUserIDs comments) with
    | (.error err, q2) => (.error err, q1 ++ q2)
    | (.ok commentUsers, q2) =>
      (.ok (groupByPost (attachUsers (commentUserMap commentUsers) comments)), q1 ++ q2)

/-! ## Responses -/

/-- The data a template is executed with. -/
inductive Page where
  | index (Posts : List PrivateIsu.Post) (Me : PrivateIsu.User) (CSRFToken : String)
      (Flash : String)
  | posts (Posts : List PrivateIsu.Post)
  | postId (Post : PrivateIsu.Post) (Me : PrivateIsu.User)
  | user (Posts : List PrivateIsu.Post) (User : PrivateIsu.User)
      (PostCount CommentCount CommentedCount : Int) (Me : PrivateIsu.User)
deriving DecidableEq, Repr

inductive Body where
  | empty
  | text (msg : String)
  | bytes (data : Bytes)
  | page (data : Page)
deriving DecidableEq, Repr

/-- What a handler has written to its `http.ResponseWriter` when it returns. -/
structure Response where
  status : Nat
  contentType : Option String
  location : Option String
  body : Body
deriving DecidableEq, Repr

/-- The handler returned without writing: `net/http` answers `200 OK` with no body. -/
def Response.silent : Response := ⟨200, none, none, .empty⟩

/-- The call `w.WriteHeader(code)`. -/
def Response.writeHeader (code : Nat) : Response := ⟨code, none, none, .empty⟩

/-- The call `http.Redirect(w, r, url, http.StatusFound)`. -/
def Response.redirect (url : String) : Response := ⟨302, none, some url, .empty⟩

/-- The call `http.Error(w, "Internal Server Error", 500)` of `handleError`. -/
def Response.internalServerError : Response := ⟨500, none, none, .text "Internal Server Error"⟩

/-- The call `tmpl.Execute(w, data)`. -/
def Response.execute (data : Page) : Response := ⟨200, none, none, .page data⟩

def StatusNotFound : Nat := 404

def StatusUnprocessableEntity : Nat := 422

def StatusInternalServerError : Nat := 500

/-! ## Session helpers -/

/-- The function `getSessionUser`. -/
def getSessionUser (s : Store) (sess : Session) : User :=
  match sess.user_id with
  | none => User.zero
  | some uid =>
    match dbGet (s.users.filter fun u => decide (u.ID = uid)) with
    | .ok u => u
    | .error _ => User.zero

/-- The function `getCSRFToken`. -/
def getCSRFToken (sess : Session) : String := sess.csrf_token.getD ""

/-- The function `getFlash` for the key `notice`. -/
def getFlash (sess : Session) : String × Session :=
  match sess.notice with
  | none => ("", sess)
  | some value => (value, { sess with notice := none })

/-- The function `isLogin`. -/
def isLogin (u : User) : Bool := u.ID != 0

/-! ## Feed handlers -/

/-- The loop that sets `Comments`, `CommentCount` and `CSRFToken` on every post. -/
def stampPosts (postCommentsMap : GoMap (List Comment)) (csrfToken : String)
    (posts : List Post) : List Post :=
  posts.map fun p =>
    { p with Comments := GoMap.getSlice postCommentsMap p.ID,
             CommentCount := ((GoMap.getSlice postCommentsMap p.ID).length : Int),
             CSRFToken := csrfToken }

/-- The handler `getIndex`. -/
def getIndex (s : Store) (sess : Session) : Response × Session :=
  let me := getSessionUser s sess
  match getLatestPosts s postsPerPage with
  | .error _ => (Response.internalServerError, sess)
  | .ok posts =>
    match (fetchCommentsAndUsers s (posts.map fun p => p.ID) 3).1 with
    | .error _ => (Response.internalServerError, sess)
    | .ok postCommentsMap =>
      let csrfToken := getCSRFToken sess
      let flash := getFlash sess
      (Response.execute (.index (stampPosts postCommentsMap csrfToken posts) me csrfToken flash.1),
        flash.2)

/-- Scanning `id, user_id, body, mime, created_at` into a `Post`. -/
def scanPost (p : PostRow) : Post :=
  { ID := p.id, UserID := p.user_id, Imgdata := [], Body := p.body, Mime := p.mime,
    CreatedAt := p.created_at, CommentCount := 0, Comments := [], User := User.zero,
    CSRFToken := "" }

/-- The handler `getAccountName`. The route admits any `accountName` of letters; the
comparison of `account_name` is taken to be exact. -/
def getAccountName (s : Store) (sess : Session) (accountName : String) : Response :=
  match dbGet (s.users.filter fun u => decide (u.AccountName = accountName) && decide (u.DelFlg = 0))
  with
  | .error _ => Response.silent
  | .ok user =>
    if user.ID = 0 then Response.writeHeader StatusNotFound
    else
      match limitRows ((s.posts.filter fun p => decide (p.user_id = user.ID)).insertionSort
          (byDesc fun p => p.created_at)) postsPerPage with
      | .error _ => Response.silent
      | .ok rows =>
        let posts := rows.map scanPost
        match (fetchCommentsAndUsers s (posts.map fun p => p.ID) 3).1 with
        | .error _ => Response.internalServerError
        | .ok postCommentsMap =>
          let csrfToken := getCSRFToken sess
          let posts := stampPosts postCommentsMap csrfToken posts
          let commentCount : Int :=
            ((s.comments.filter fun c => decide (c.user_id = user.ID)).length : Int)
          let postIDs := (s.posts.filter fun p => decide (p.user_id = user.ID)).map fun p => p.id
          let postCount : Int := (postIDs.length : Int)
          let commentedCount : Int :=
            if postCount > 0 then
              ((s.comments.filter fun c => decide (c.post_id ∈ postIDs)).length : Int)
            else 0
          let me := getSessionUser s sess
          Response.execute (.user posts user postCount commentCount commentedCount me)

/-- The query string of `GET /posts` as `getPosts` sees it. -/
inductive PostsQuery where
  /-- The call `url.ParseQuery` fails. -/
  | unparsable
  /-- No `max_created_at`, or an empty one. -/
  | noCursor
  /-- The call `time.Parse` fails. -/
  | badCursor
  | cursor (t : Time)
deriving DecidableEq, Repr

/-- The loop of `getPosts` that sets `Comments` and `CommentCount`: no token is stamped. -/
def attachComments (postCommentsMap : GoMap (List Comment)) (results : List Post) : List Post :=
  results.map fun p =>
    { p with Comments := GoMap.getSlice postCommentsMap p.ID,
             CommentCount := ((GoMap.getSlice postCommentsMap p.ID).length : Int) }

/-- The handler `getPosts`. -/
def getPosts (s : Store) (q : PostsQuery) : Response :=
  match q with
  | .unparsable => Response.writeHeader StatusInternalServerError
  | .noCursor => Response.silent
  | .badCursor => Response.silent
  | .cursor t =>
    match selectPostsBefore s t postsPerPage with
    | .error _ => Response.silent
    | .ok results =>
      match (getCommentsForPosts s (results.map fun p => p.ID) 3).1 with
      | .error _ => Response.internalServerError
      | .ok comments =>
        match (getUsersByIDs s (commentUserIDs comments)).1 with
        | .error _ => Response.internalServerError
        | .ok commentUsers =>
          let postCommentsMap := groupByPost (attachUsers (commentUserMap commentUsers) comments)
          let results := attachComments postCommentsMap results
          if results.length = 0 then Response.writeHeader StatusNotFound
          else Response.execute (.posts results)

/-! ## Single-post assembler -/

/-- The rows of `comments c JOIN users u ON c.user_id = u.id`. -/
def joinCommentsUsers (s : Store) : List (CommentRow × User) :=
  (s.comments.map fun c =>
    (s.users.filter fun u => decide (c.user_id = u.ID)).map fun u => (c, u)).flatten

/-- Scanning the five `c.*` columns and `user.id`, `user.account_name` into a `Comment`. -/
def scanCommentUser (r : CommentRow × User) : Comment :=
  { ID := r.1.id, PostID := r.1.post_id, UserID := r.1.user_id, Comment := r.1.comment,
    CreatedAt := r.1.created_at, User := scanUserName r.2 }

/-- The function `makePost`: `.ok none` is the result `nil, nil`. -/
def makePost (s : Store) (postID : Int) (csrfToken : String) : Except DBError (Option Post) :=
  match dbGet ((joinPostsUsers s).filter fun r =>
      decide (r.1.id = postID) && decide (r.2.DelFlg = 0)) with
  | .error .ErrNoRows => .ok none
  | .error err => .error err
  | .ok r =>
    let comments :=
      (((joinCommentsUsers s).filter fun x => decide (x.1.post_id = postID)).insertionSort
        (byDesc fun x => x.1.created_at)).map scanCommentUser
    .ok (some { scanPostUser r with
      Comments := comments, CommentCount := (comments.length : Int), CSRFToken := csrfToken })

/-- The handler `getPostsID`; `pid` is `none` when `strconv.Atoi` fails. -/
def getPostsID (s : Store) (sess : Session) (pid : Option Int) : Response :=
  match pid with
  | none => Response.writeHeader StatusNotFound
  | some pid =>
    match makePost s pid (getCSRFToken sess) with
    | .error _ => Response.silent
    | .ok none => Response.writeHeader StatusNotFound
    | .ok (some post) => Response.execute (.postId post (getSessionUser s sess))

/-! ## Image store -/

/-- The call `strings.Contains`. -/
def stringsContains (s substr : String) : Bool :=
  s.toList.tails.any fun t => substr.toList.isPrefixOf t

/-- The path `filepath.Join(ImageDir, fmt.Sprintf("%d.%s", pid, ext))`. -/
def imagePath (pid : Int) (ext : String) : String :=
  ImageDir ++ toString pid ++ "." ++ ext

/-- The call `os.WriteFile` where it succeeds. -/
def writeFile (s : Store) (path : String) (data : Bytes) : Store :=
  { s with files := (path, data) :: s.files.filter fun f => decide (f.1 ≠ path) }

/-- Reading a file of the image directory. -/
def readFile (s : Store) (path : String) : Option Bytes :=
  (s.files.find? fun f => decide (f.1 = path)).map Prod.snd

/-- The part `file` of a multipart form with its declared content type. -/
structure Upload where
  contentType : String
  data : Bytes
deriving DecidableEq, Repr

/-- The form of `POST /`. -/
structure PostIndexForm where
  csrf_token : String
  file : Option Upload
  body : String
deriving DecidableEq, Repr

/-- The choice of `mime` and `ext` from the declared content type. -/
def detectMime (contentType : String) : Option (String × String) :=
  if stringsContains contentType "jpeg" then some ("image/jpeg", "jpg")
  else if stringsContains contentType "png" then some ("image/png", "png")
  else if stringsContains contentType "gif" then some ("image/gif", "gif")
  else none

/-- The handler `postIndex`; `now` is the `CURRENT_TIMESTAMP` of the insert. -/
def postIndex (s : Store) (sess : Session) (form : PostIndexForm) (now : Time) :
    Response × Store × Session :=
  let me := getSessionUser s sess
  if !isLogin me then (Response.redirect "/login", s, sess)
  else if form.csrf_token ≠ getCSRFToken sess then
    (Response.writeHeader StatusUnprocessableEntity, s, sess)
  else
    match form.file with
    | none => (Response.redirect "/", s, { sess with notice := some "画像が必須です" })
    | some file =>
      match detectMime file.contentType with
      | none =>
        (Response.redirect "/", s,
          { sess with notice := some "投稿できる画像形式はjpgとpngとgifだけです" })
      | some (mime, ext) =>
        if file.data.length > UploadLimit then
          (Response.redirect "/", s, { sess with notice := some "ファイルサイズが大きすぎます" })
        else
          let pid := s.nextPostID
          let s1 : Store :=
            { s with posts := s.posts ++ [⟨pid, me.ID, mime, [], form.body, now⟩],
                     nextPostID := pid + 1 }
          let filepath := imagePath pid ext
          if s1.writeFails filepath then (Response.silent, s1, sess)
          else (Response.redirect ("/posts/" ++ toString pid), writeFile s1 filepath file.data, sess)

/-- Scanning `SELECT *` of table `posts` into a `Post`. -/
def scanPostAll (p : PostRow) : Post :=
  { ID := p.id, UserID := p.user_id, Imgdata := p.imgdata, Body := p.body, Mime := p.mime,
    CreatedAt := p.created_at, CommentCount := 0, Comments := [], User := User.zero,
    CSRFToken := "" }

/-- The handler `getImage`; `pid` is `none` when `strconv.Atoi` fails. -/
def getImage (s : Store) (pid : Option Int) (ext : String) : Response × Store :=
  match pid with
  | none => (Response.writeHeader StatusNotFound, s)
  | some pid =>
    match dbGet (s.posts.filter fun p => decide (p.id = pid)) with
    | .error _ => (Response.silent, s)
    | .ok row =>
      let post := scanPostAll row
      if (ext = "jpg" ∧ post.Mime = "image/jpeg") ∨
         (ext = "png" ∧ post.Mime = "image/png") ∨
         (ext = "gif" ∧ post.Mime = "image/gif") then
        (⟨200, some post.Mime, none, .bytes post.Imgdata⟩, s)
      else
        let filepath := imagePath pid ext
        if s.writeFails filepath then (Response.silent, s)
        else (Response.writeHeader StatusNotFound, writeFile s filepath post.Imgdata)

/-! ## Observations and specification-side definitions -/

/-- The post view-models a response hands to its template. -/
def Response.viewModels (r : Response) : List Post :=
  match r.body with
  | .page (.index posts _ _ _) => posts
  | .page (.posts posts) => posts
  | .page (.user posts _ _ _ _ _) => posts
  | .page (.postId post _) => [post]
  | _ => []

/-- The columns of a `Comment`, without the attached author. -/
def Comment.row (c : PrivateIsu.Comment) : CommentRow :=
  ⟨c.ID, c.PostID, c.UserID, c.Comment, c.CreatedAt⟩

/-- The order the specification names for comments: creation time descending, ties broken by
identifier descending. -/
def createdThenIdDesc (a b : CommentRow) : Prop :=
  b.created_at < a.created_at ∨ (b.created_at = a.created_at ∧ b.id ≤ a.id)

instance createdThenIdDesc.decidable : DecidableRel createdThenIdDesc :=
  fun a b => inferInstanceAs
    (Decidable (b.created_at < a.created_at ∨ (b.created_at = a.created_at ∧ b.id ≤ a.id)))

/-- Primary keys: no two rows of `users` share an `id`. -/
def UserIDsUnique (s : Store) : Prop := (s.users.map fun u => u.ID).Nodup

/-- Primary keys: no two rows of `posts` share an `id`. -/
def PostIDsUnique (s : Store) : Prop := (s.posts.map fun p => p.id).Nodup

/-- Referential integrity of `posts.user_id`. -/
def PostAuthorsExist (s : Store) : Prop := ∀ p ∈ s.posts, ∃ u ∈ s.users, u.ID = p.user_id

/-- Referential integrity of `comments.user_id`. -/
def CommentAuthorsExist (s : Store) : Prop := ∀ c ∈ s.comments, ∃ u ∈ s.users, u.ID = c.user_id

/-- The `AUTO_INCREMENT` counter of `posts` is above every identifier in use. -/
def PostCounterFresh (s : Store) : Prop := ∀ p ∈ s.posts, p.id < s.nextPostID

instance UserIDsUnique.decidable (s : Store) : Decidable (UserIDsUnique s) :=
  inferInstanceAs (Decidable (List.Nodup (s.users.map fun u : User => u.ID)))

instance PostIDsUnique.decidable (s : Store) : Decidable (PostIDsUnique s) :=
  inferInstanceAs (Decidable (List.Nodup (s.posts.map fun p : PostRow => p.id)))

instance PostAuthorsExist.decidable (s : Store) : Decidable (PostAuthorsExist s) :=
  inferInstanceAs (Decidable (∀ p ∈ s.posts, ∃ u ∈ s.users, u.ID = p.user_id))

instance CommentAuthorsExist.decidable (s : Store) : Decidable (CommentAuthorsExist s) :=
  inferInstanceAs (Decidable (∀ c ∈ s.comments, ∃ u ∈ s.users, u.ID = c.user_id))

instance PostCounterFresh.decidable (s : Store) : Decidable (PostCounterFresh s) :=
  inferInstanceAs (Decidable (∀ p ∈ s.posts, p.id < s.nextPostID))

/-! ## Example stores -/

/-- Three users (bob is banned), three posts, four comments on post 1 of which
comments 1 and 2 share a creation time. -/
def feedStore : Store :=
  { users := [⟨1, "alice", "x", 0, 0, 1⟩, ⟨2, "bob", "y", 0, 1, 2⟩, ⟨3, "carol", "z", 0, 0, 3⟩],
    posts := [⟨1, 1, "image/jpeg", [], "first", 10⟩, ⟨2, 2, "image/png", [], "second", 11⟩,
              ⟨3, 3, "image/gif", [], "third", 12⟩],
    comments := [⟨1, 1, 3, "a", 5⟩, ⟨2, 1, 1, "b", 5⟩, ⟨3, 1, 2, "c", 6⟩, ⟨4, 1, 3, "d", 7⟩],
    nextPostID := 4, files := [], writeFails := fun _ => false }

/-- As `feedStore`, with an image directory that cannot be written. -/
def readOnlyStore : Store := { feedStore with writeFails := fun _ => true }

/-- One user, one post, and a comment whose author 9 has no row. -/
def orphanStore : Store :=
  { users := [⟨1, "alice", "x", 0, 0, 1⟩],
    posts := [⟨1, 1, "image/jpeg", [], "first", 10⟩],
    comments := [⟨1, 1, 1, "a", 5⟩, ⟨2, 1, 9, "b", 6⟩],
    nextPostID := 2, files := [], writeFails := fun _ => false }

def aliceSession : Session := ⟨some 1, some "tok", none⟩

/-- A JPEG upload of five bytes. -/
def jpegForm : PostIndexForm := ⟨"tok", some ⟨"image/jpeg", [1, 2, 3, 4, 5]⟩, "hi"⟩

/-! ## Statements of the profile feed -/

/-- The statements a request of the profile feed sends to the database, in order. -/
inductive Statement where
  /-- The statement `SELECT * FROM users WHERE account_name = ? AND del_flg = 0`. -/
  | userByName (accountName : String)
  /-- The statement `SELECT ... FROM posts WHERE user_id = ? ORDER BY created_at DESC LIMIT ?`. -/
  | postsByUser (userID : Int) (limit : Int)
  /-- A statement of the batch loader. -/
  | loader (q : Query)
  /-- The statement `SELECT COUNT(*) FROM comments WHERE user_id = ?`. -/
  | countCommentsByUser (userID : Int)
  /-- The statement `SELECT id FROM posts WHERE user_id = ?`. -/
  | postIDsByUser (userID : Int)
  /-- The statement `SELECT COUNT(*) FROM comments WHERE post_id IN (...)`. -/
  | countCommentsForPosts (postIDs : List Int)
  /-- The statement `SELECT * FROM users WHERE id = ?` of `getSessionUser`. -/
  | userByID (uid : Int)
deriving DecidableEq, Repr

/-- The identifier set of an `IN (...)` list, for the statements that have one. -/
def Statement.idSet : Statement → Option (List Int)
  | .loader (.selectComments postIDs _) => some postIDs
  | .loader (.selectUsers userIDs) => some userIDs
  | .countCommentsForPosts postIDs => some postIDs
  | _ => none

/-- The statement `getSessionUser` issues: none without a `user_id` in the session. -/
def getSessionUserStatements (sess : Session) : List Statement :=
  match sess.user_id with
  | none => []
  | some uid => [.userByID uid]

/-- The handler `getAccountName` together with the statements it issues. -/
def getAccountNameTraced (s : Store) (sess : Session) (accountName : String) :
    Response × List Statement :=
  match dbGet (s.users.filter fun u => decide (u.AccountName = accountName) && decide (u.DelFlg = 0))
  with
  | .error _ => (Response.silent, [.userByName accountName])
  | .ok user =>
    if user.ID = 0 then (Response.writeHeader StatusNotFound, [.userByName accountName])
    else
      match limitRows ((s.posts.filter fun p => decide (p.user_id = user.ID)).insertionSort
          (byDesc fun p => p.created_at)) postsPerPage with
      | .error _ =>
        (Response.silent, [.userByName accountName, .postsByUser user.ID postsPerPage])
      | .ok rows =>
        let posts := rows.map scanPost
        let fetched := fetchCommentsAndUsers s (posts.map fun p => p.ID) 3
        let issued : List Statement :=
          [.userByName accountName, .postsByUser user.ID postsPerPage] ++
            fetched.2.map Statement.loader
        match fetched.1 with
        | .error _ => (Response.internalServerError, issued)
        | .ok postCommentsMap =>
          let csrfToken := getCSRFToken sess
          let posts := stampPosts postCommentsMap csrfToken posts
          let commentCount : Int :=
            ((s.comments.filter fun c => decide (c.user_id = user.ID)).length : Int)
          let postIDs := (s.posts.filter fun p => decide (p.user_id = user.ID)).map fun p => p.id
          let postCount : Int := (postIDs.length : Int)
          let counted : Int × List Statement :=
            if postCount > 0 then
              (((s.comments.filter fun c => decide (c.post_id ∈ postIDs)).length : Int),
                [.countCommentsForPosts postIDs])
            else (0, [])
          let me := getSessionUser s sess
          (Response.execute (.user posts user postCount commentCount counted.1 me),
            issued ++ [.countCommentsByUser user.ID, .postIDsByUser user.ID] ++ counted.2 ++
              getSessionUserStatements sess)

/-! ## Further specification-side definitions -/

/-- The three MIME types of the data model. -/
def supportedMimes : List String := ["image/jpeg", "image/png", "image/gif"]

/-- The comments whose post reference is a post of user `userID`. -/
def commentsReceived (s : Store) (userID : Int) : List CommentRow :=
  s.comments.filter fun c =>
    s.posts.any fun p => decide (p.user_id = userID) && decide (p.id = c.post_id)

/-- The comment rows of post `postID` whose author has a row in `users`. -/
def commentsWithAuthor (s : Store) (postID : Int) : List CommentRow :=
  s.comments.filter fun c =>
    decide (c.post_id = postID) && s.users.any fun u => decide (c.user_id = u.ID)

/-- The store restricted to the posts with creation time at most `t`. -/
def restrictPosts (s : Store) (t : Time) : Store :=
  { s with posts := s.posts.filter fun p => decide (p.created_at ≤ t) }

/-- The canonical extension of a MIME type of the data model. -/
def canonicalExtension (mime : String) : Option String :=
  if mime = "image/jpeg" then some "jpg"
  else if mime = "image/png" then some "png"
  else if mime = "image/gif" then some "gif"
  else none

/-- A legacy row: post 1 is a JPEG whose bytes are inline, and no file exists. -/
def legacyStore : Store :=
  { users := [⟨1, "alice", "x", 0, 0, 1⟩],
    posts := [⟨1, 1, "image/jpeg", [7, 8, 9], "first", 10⟩],
    comments := [],
    nextPostID := 2, files := [], writeFails := fun _ => false }

/-- An upload that declares the content type `image/pjpeg`. -/
def pjpegForm : PostIndexForm := ⟨"tok", some ⟨"image/pjpeg", [1, 2, 3]⟩, "hi"⟩

/-- An upload that declares the content type `text/plain`. -/
def textForm : PostIndexForm := ⟨"tok", some ⟨"text/plain", [1, 2, 3]⟩, "hi"⟩

/-- As `feedStore`, with a fourth user dora who has no posts. -/
def quietStore : Store :=
  { feedStore with users := feedStore.users ++ [⟨4, "dora", "w", 0, 0, 4⟩] }

/-! ## Lemmas -/

theorem GoMap.get?_set {β : Type} (m : GoMap β) (k k2 : Int) (v : β) :
    GoMap.get? (GoMap.set m k v) k2 = if k = k2 then some v else GoMap.get? m k2 := by
  induction m with
  | nil => simp [GoMap.set, GoMap.get?]
  | cons hd tl ih =>
    obtain ⟨k1, v1⟩ := hd
    by_cases h1 : k1 = k
    · subst h1
      by_cases h2 : k1 = k2 <;> simp [GoMap.set, GoMap.get?, h2]
    · by_cases h2 : k1 = k2
      · subst h2
        have h3 : ¬ k = k1 := fun h => h1 h.symm
        simp [GoMap.set, GoMap.get?, h1, h3]
      · simp [GoMap.set, GoMap.get?, h1, h2, ih]

theorem getSlice_foldl_group (cs : List Comment) (m : GoMap (List Comment)) (pid : Int) :
    GoMap.getSlice
      (cs.foldl (fun m c => GoMap.set m c.PostID (GoMap.getSlice m c.PostID ++ [c])) m) pid
      = GoMap.getSlice m pid ++ cs.filter fun c => decide (c.PostID = pid) := by
  induction cs generalizing m with
  | nil => simp
  | cons c cs ih =>
    rw [List.foldl_cons, ih]
    by_cases h : c.PostID = pid
    · subst h
      simp [GoMap.getSlice, GoMap.get?_set]
    · simp [GoMap.getSlice, GoMap.get?_set, h]

theorem getSlice_groupByPost (cs : List Comment) (pid : Int) :
    GoMap.getSlice (groupByPost cs) pid = cs.filter fun c => decide (c.PostID = pid) := by
  rw [groupByPost, getSlice_foldl_group]
  simp [GoMap.getSlice, GoMap.get?]

theorem get?_foldl_set_none (us : List User) (m : GoMap User) (k : Int) :
    GoMap.get? (us.foldl (fun m u => GoMap.set m u.ID u) m) k = none ↔
      GoMap.get? m k = none ∧ ∀ u ∈ us, u.ID ≠ k := by
  induction us generalizing m with
  | nil => simp
  | cons u us ih =>
    rw [List.foldl_cons, ih, GoMap.get?_set]
    by_cases h : u.ID = k
    · simp [h]
    · simp [h]

theorem get?_commentUserMap_none (us : List User) (k : Int) :
    GoMap.get? (commentUserMap us) k = none ↔ ∀ u ∈ us, u.ID ≠ k := by
  simp [commentUserMap, get?_foldl_set_none, GoMap.get?]

theorem orderedInsert_of_forall_rel {α : Type} (r : α → α → Prop) [DecidableRel r] (a : α)
    (l : List α) (h : ∀ x ∈ l, r a x) : l.orderedInsert r a = a :: l := by
  cases l with
  | nil => rfl
  | cons b l => simp [List.orderedInsert, h b (List.mem_cons_self b l)]

theorem filter_orderedInsert {α : Type} (r : α → α → Prop) [DecidableRel r] [IsTrans α r]
    (p : α → Bool) (a : α) (l : List α) (hl : l.Sorted r) :
    (l.orderedInsert r a).filter p =
      if p a then (l.filter p).orderedInsert r a else l.filter p := by
  induction l with
  | nil => by_cases hp : p a <;> simp [hp]
  | cons b l ih =>
    have hb : ∀ x ∈ l, r b x := List.rel_of_sorted_cons hl
    by_cases hab : r a b
    · have hall : ∀ x ∈ (b :: l).filter p, r a x := by
        intro x hx
        rcases List.mem_cons.1 (List.mem_of_mem_filter hx) with h | h
        · exact h ▸ hab
        · exact IsTrans.trans _ _ _ hab (hb x h)
      rw [List.orderedInsert, if_pos hab]
      by_cases hp : p a
      · rw [if_pos hp, orderedInsert_of_forall_rel r a _ hall, List.filter_cons_of_pos hp]
      · rw [if_neg hp, List.filter_cons_of_neg hp]
    · rw [List.orderedInsert, if_neg hab]
      by_cases hpb : p b
      · rw [List.filter_cons_of_pos hpb, ih hl.of_cons, List.filter_cons_of_pos hpb]
        by_cases hp : p a
        · simp [hp, List.orderedInsert, hab]
        · simp [hp]
      · rw [List.filter_cons_of_neg hpb, ih hl.of_cons, List.filter_cons_of_neg hpb]

theorem filter_insertionSort {α : Type} (r : α → α → Prop) [DecidableRel r] [IsTrans α r]
    [IsTotal α r] (p : α → Bool) (l : List α) :
    (l.insertionSort r).filter p = (l.filter p).insertionSort r := by
  induction l with
  | nil => rfl
  | cons a l ih =>
    rw [List.insertionSort, filter_orderedInsert r p a _ (List.sorted_insertionSort r l), ih]
    by_cases hp : p a
    · simp [hp, List.filter_cons_of_pos]
    · simp [hp, List.filter_cons_of_neg]

instance postThenCreatedDesc.isTotal : IsTotal CommentRow postThenCreatedDesc :=
  ⟨fun a b => by
    unfold postThenCreatedDesc
    rcases lt_trichotomy a.post_id b.post_id with h | h | h
    · exact Or.inl (Or.inl h)
    · rcases Nat.le_total b.created_at a.created_at with h2 | h2
      · exact Or.inl (Or.inr ⟨h, h2⟩)
      · exact Or.inr (Or.inr ⟨h.symm, h2⟩)
    · exact Or.inr (Or.inl h)⟩

instance postThenCreatedDesc.isTrans : IsTrans CommentRow postThenCreatedDesc :=
  ⟨fun a b c h1 h2 => by
    unfold postThenCreatedDesc at *
    rcases h1 with h1 | ⟨h1, h1t⟩ <;> rcases h2 with h2 | ⟨h2, h2t⟩
    · exact Or.inl (lt_trans h1 h2)
    · exact Or.inl (h2 ▸ h1)
    · exact Or.inl (h1 ▸ h2)
    · exact Or.inr ⟨h1.trans h2, Nat.le_trans h2t h1t⟩⟩

theorem rowNumber_filter (limit pid : Int) (l seen : List CommentRow) :
    ((rowNumber seen l).filter fun x => decide (x.2 ≤ limit) && decide (x.1.post_id = pid)).map
        Prod.fst =
      (l.filter fun c => decide (c.post_id = pid)).take
        (limit.toNat - (seen.filter fun d => decide (d.post_id = pid)).length) := by
  induction l generalizing seen with
  | nil => simp [rowNumber]
  | cons c cs ih =>
    rw [rowNumber]
    by_cases hc : c.post_id = pid
    · subst hc
      have hseen : ((c :: seen).filter fun d => decide (d.post_id = c.post_id)).length
          = (seen.filter fun d => decide (d.post_id = c.post_id)).length + 1 := by
        simp
      have e2 : ((c :: cs).filter fun d => decide (d.post_id = c.post_id))
          = c :: cs.filter fun d => decide (d.post_id = c.post_id) := by
        simp
      rw [e2]
      generalize hn : (seen.filter fun d => decide (d.post_id = c.post_id)).length = n at hseen
      by_cases hk : (n : Int) + 1 ≤ limit
      · rw [List.filter_cons_of_pos (by simpa using hk), List.map_cons, ih, hseen]
        have hpos : limit.toNat - n = (limit.toNat - (n + 1)) + 1 := by omega
        rw [hpos, List.take_succ_cons]
      · rw [List.filter_cons_of_neg (by simpa using hk), ih, hseen]
        have hzero : limit.toNat - n = 0 := by omega
        have hzero2 : limit.toNat - (n + 1) = 0 := by omega
        rw [hzero, hzero2]
        simp
    · have hseen : ((c :: seen).filter fun d => decide (d.post_id = pid))
          = seen.filter fun d => decide (d.post_id = pid) := by
        simp [hc]
      have e2 : ((c :: cs).filter fun d => decide (d.post_id = pid))
          = cs.filter fun d => decide (d.post_id = pid) := by
        simp [hc]
      rw [List.filter_cons_of_neg (by simp [hc]), ih, hseen, e2]

theorem filter_selectComments (s : Store) (postIDs : List Int) (limitPerPost pid : Int)
    (hpid : pid ∈ postIDs) :
    (selectComments s postIDs limitPerPost).filter (fun c => decide (c.post_id = pid)) =
      ((s.comments.filter fun c => decide (c.post_id = pid)).insertionSort
        (byDesc fun c => c.created_at)).take limitPerPost.toNat := by
  have hR : ((s.comments.filter fun c => decide (c.post_id ∈ postIDs)).filter
      fun c => decide (c.post_id = pid)) = s.comments.filter fun c => decide (c.post_id = pid) := by
    rw [List.filter_filter]
    congr 1
    funext c
    by_cases h : c.post_id = pid
    · simp [h, hpid]
    · simp [h]
  have hsorted : (((s.comments.filter fun c => decide (c.post_id = pid)).insertionSort
        (byDesc fun c => c.created_at)).take limitPerPost.toNat).Sorted postThenCreatedDesc := by
    have h1 := List.sorted_insertionSort (byDesc fun c : CommentRow => c.created_at)
      (s.comments.filter fun c => decide (c.post_id = pid))
    have h2 : (((s.comments.filter fun c => decide (c.post_id = pid)).insertionSort
        (byDesc fun c => c.created_at)).take limitPerPost.toNat).Sorted
          (byDesc fun c : CommentRow => c.created_at) :=
      List.Pairwise.sublist (List.take_sublist _ _) h1
    refine List.Pairwise.imp_of_mem ?_ h2
    intro a b ha hb hab
    have ha2 := (List.mem_insertionSort _).1 (List.mem_of_mem_take ha)
    have hb2 := (List.mem_insertionSort _).1 (List.mem_of_mem_take hb)
    have ha3 : a.post_id = pid := by simpa using (List.mem_filter.1 ha2).2
    have hb3 : b.post_id = pid := by simpa using (List.mem_filter.1 hb2).2
    exact Or.inr ⟨ha3.trans hb3.symm, hab⟩
  unfold selectComments
  simp only []
  rw [filter_insertionSort, List.filter_map, List.filter_filter]
  have hq : (fun a : CommentRow × Int =>
      ((fun c : CommentRow => decide (c.post_id = pid)) ∘ Prod.fst) a && decide (a.2 ≤ limitPerPost))
      = fun x => decide (x.2 ≤ limitPerPost) && decide (x.1.post_id = pid) := by
    funext a
    simp [Bool.and_comm]
  rw [hq, rowNumber_filter, filter_insertionSort, hR]
  simp only [List.filter_nil, List.length_nil, Nat.sub_zero]
  exact List.Sorted.insertionSort_eq hsorted

theorem getCommentsForPosts_fst (s : Store) (postIDs : List Int) (limitPerPost : Int) :
    (getCommentsForPosts s postIDs limitPerPost).1 =
      .ok (if postIDs = [] then [] else (selectComments s postIDs limitPerPost).map scanComment) := by
  unfold getCommentsForPosts
  cases postIDs <;> simp

theorem getUsersByIDs_fst (s : Store) (userIDs : List Int) :
    (getUsersByIDs s userIDs).1 =
      .ok ((s.users.filter fun u => decide (u.ID ∈ userIDs)).map scanUserName) := by
  unfold getUsersByIDs
  cases userIDs <;> simp

theorem fetchCommentsAndUsers_fst (s : Store) (postIDs : List Int) (limitPerPost : Int) :
    ∃ comments commentUsers,
      (getCommentsForPosts s postIDs limitPerPost).1 = .ok comments ∧
      (getUsersByIDs s (commentUserIDs comments)).1 = .ok commentUsers ∧
      (fetchCommentsAndUsers s postIDs limitPerPost).1 =
        .ok (groupByPost (attachUsers (commentUserMap commentUsers) comments)) := by
  have h1 := getCommentsForPosts_fst s postIDs limitPerPost
  generalize hc : (if postIDs = [] then []
    else (selectComments s postIDs limitPerPost).map scanComment) = comments at h1
  have h2 := getUsersByIDs_fst s (commentUserIDs comments)
  refine ⟨comments, _, h1, h2, ?_⟩
  unfold fetchCommentsAndUsers
  rcases hq1 : getCommentsForPosts s postIDs limitPerPost with ⟨r1, q1⟩
  rw [hq1] at h1
  simp only at h1
  subst h1
  simp only
  rcases hq2 : getUsersByIDs s (commentUserIDs comments) with ⟨r2, q2⟩
  rw [hq2] at h2
  simp only at h2
  subst h2
  rfl

theorem attachUser_row (m : GoMap User) (c : Comment) : (attachUser m c).row = c.row := by
  unfold attachUser
  split <;> rfl

theorem attachUser_PostID (m : GoMap User) (c : Comment) : (attachUser m c).PostID = c.PostID := by
  unfold attachUser
  split <;> rfl

theorem attachUsers_row (m : GoMap User) (cs : List Comment) :
    (attachUsers m cs).map Comment.row = cs.map Comment.row := by
  unfold attachUsers
  rw [List.map_map]
  apply List.map_congr_left
  intro c _
  exact attachUser_row m c

theorem filter_attachUsers (m : GoMap User) (cs : List Comment) (pid : Int) :
    (attachUsers m cs).filter (fun c => decide (c.PostID = pid)) =
      attachUsers m (cs.filter fun c => decide (c.PostID = pid)) := by
  unfold attachUsers
  rw [List.filter_map]
  congr 1
  apply List.filter_congr
  intro c _
  simp only [Function.comp, attachUser_PostID]

theorem row_scanComment (c : CommentRow) : (scanComment c).row = c := rfl

theorem getSlice_fetch_row (s : Store) (postIDs : List Int) (limitPerPost pid : Int)
    (commentUsers : List User) (hpid : pid ∈ postIDs) :
    (GoMap.getSlice (groupByPost (attachUsers (commentUserMap commentUsers)
        ((selectComments s postIDs limitPerPost).map scanComment))) pid).map Comment.row =
      ((s.comments.filter fun c => decide (c.post_id = pid)).insertionSort
        (byDesc fun c => c.created_at)).take limitPerPost.toNat := by
  rw [getSlice_groupByPost, filter_attachUsers, attachUsers_row, List.filter_map, List.map_map]
  have hf : ((fun c : Comment => decide (c.PostID = pid)) ∘ scanComment) =
      fun c : CommentRow => decide (c.post_id = pid) := rfl
  have hm : (Comment.row ∘ scanComment) = id := rfl
  rw [hf, hm, List.map_id, filter_selectComments s postIDs limitPerPost pid hpid]

theorem mem_joinPostsUsers (s : Store) (r : PostRow × User) :
    r ∈ joinPostsUsers s ↔ r.1 ∈ s.posts ∧ r.2 ∈ s.users ∧ r.1.user_id = r.2.ID := by
  obtain ⟨p, u⟩ := r
  simp only [joinPostsUsers, List.mem_flatten, List.mem_map, List.mem_filter, decide_eq_true_eq]
  constructor
  · rintro ⟨l, ⟨p2, hp2, rfl⟩, hmem⟩
    obtain ⟨u2, hu2, heq⟩ := List.mem_map.1 hmem
    have hu3 := List.mem_filter.1 hu2
    cases heq
    exact ⟨hp2, hu3.1, by simpa using hu3.2⟩
  · rintro ⟨hp, hu, hid⟩
    exact ⟨_, ⟨p, hp, rfl⟩, List.mem_map.2 ⟨u, List.mem_filter.2 ⟨hu, by simpa using hid⟩, rfl⟩⟩

theorem limitRows_natCast {α : Type} (rows : List α) (n : Nat) :
    limitRows rows (n : Int) = .ok (rows.take n) := by
  simp [limitRows]

theorem getLatestPosts_natCast (s : Store) (n : Nat) :
    getLatestPosts s (n : Int) =
      .ok ((((joinPostsUsers s).filter fun r => decide (r.2.DelFlg = 0)).insertionSort
        (byDesc fun r => r.1.created_at)).take n |>.map scanPostUser) := by
  rw [getLatestPosts, limitRows_natCast]
  rfl

theorem selectPostsBefore_natCast (s : Store) (t : Time) (n : Nat) :
    selectPostsBefore s t (n : Int) =
      .ok ((((joinPostsUsers s).filter fun r =>
          decide (r.1.created_at ≤ t) && decide (r.2.DelFlg = 0)).insertionSort
        (byDesc fun r => r.1.created_at)).take n |>.map scanPostUser) := by
  rw [selectPostsBefore, limitRows_natCast]
  rfl

theorem feed_rows_unbanned (s : Store) (f : PostRow × User → Bool) (n : Nat)
    (hf : ∀ r, f r = true → r.2.DelFlg = 0) (p : Post)
    (hp : p ∈ ((((joinPostsUsers s).filter f).insertionSort
        (byDesc fun r => r.1.created_at)).take n).map scanPostUser) :
    p.User.DelFlg = 0 ∧
      ∃ row ∈ s.posts, ∃ u ∈ s.users, row.user_id = u.ID ∧ p = scanPostUser (row, u) := by
  obtain ⟨r, hr, rfl⟩ := List.mem_map.1 hp
  have hr2 := List.mem_filter.1 ((List.mem_insertionSort _).1 (List.mem_of_mem_take hr))
  obtain ⟨h1, h2, h3⟩ := (mem_joinPostsUsers s r).1 hr2.1
  exact ⟨hf r hr2.2, r.1, h1, r.2, h2, h3, rfl⟩

theorem filter_userID_eq_singleton (users : List User) (hn : (users.map fun u => u.ID).Nodup)
    (u : User) (hu : u ∈ users) :
    users.filter (fun v => decide (u.ID = v.ID)) = [u] := by
  induction users with
  | nil => cases hu
  | cons v vs ih =>
    rw [List.map_cons, List.nodup_cons] at hn
    by_cases huv : u = v
    · subst huv
      have hnone : vs.filter (fun w => decide (u.ID = w.ID)) = [] := by
        rw [List.filter_eq_nil_iff]
        intro w hw hid
        exact hn.1 (List.mem_map.2 ⟨w, hw, (by simpa using hid : u.ID = w.ID).symm⟩)
      rw [List.filter_cons_of_pos (by simp), hnone]
    · have hu2 : u ∈ vs := by
        rcases List.mem_cons.1 hu with h | h
        · exact absurd h huv
        · exact h
      have hne : ¬ u.ID = v.ID := fun h => hn.1 (List.mem_map.2 ⟨u, hu2, h⟩)
      rw [List.filter_cons_of_neg (by simpa using hne)]
      exact ih hn.2 hu2

theorem joinCommentsUsers_fst_aux (users : List User) (hn : (users.map fun u => u.ID).Nodup)
    (cs : List CommentRow) (hc : ∀ c ∈ cs, ∃ u ∈ users, u.ID = c.user_id) :
    ((cs.map fun c =>
        (users.filter fun u => decide (c.user_id = u.ID)).map fun u => (c, u)).flatten).map
      Prod.fst = cs := by
  induction cs with
  | nil => rfl
  | cons c cs ih =>
    obtain ⟨u, hu, hid⟩ := hc c (List.mem_cons_self c cs)
    have h1 := filter_userID_eq_singleton users hn u hu
    rw [hid] at h1
    rw [List.map_cons, List.flatten_cons, List.map_append, h1,
      ih fun d hd => hc d (List.mem_cons_of_mem c hd)]
    rfl

theorem joinCommentsUsers_fst (s : Store) (hu : UserIDsUnique s) (hc : CommentAuthorsExist s) :
    (joinCommentsUsers s).map Prod.fst = s.comments :=
  joinCommentsUsers_fst_aux s.users hu s.comments hc

theorem mem_joinCommentsUsers (s : Store) (r : CommentRow × User) (h : r ∈ joinCommentsUsers s) :
    r.2 ∈ s.users ∧ r.2.ID = r.1.user_id := by
  obtain ⟨c, u⟩ := r
  simp only [joinCommentsUsers, List.mem_flatten, List.mem_map] at h
  obtain ⟨l, ⟨c2, _, rfl⟩, hmem⟩ := h
  obtain ⟨u2, hu2, heq⟩ := List.mem_map.1 hmem
  have hu3 := List.mem_filter.1 hu2
  cases heq
  exact ⟨hu3.1, (by simpa using hu3.2 : c.user_id = u.ID).symm⟩

theorem makePost_comments_rows (s : Store) (postID : Int) (hu : UserIDsUnique s)
    (hc : CommentAuthorsExist s) :
    ((((joinCommentsUsers s).filter fun x => decide (x.1.post_id = postID)).insertionSort
        (byDesc fun x => x.1.created_at)).map scanCommentUser).map Comment.row =
      (s.comments.filter fun c => decide (c.post_id = postID)).insertionSort
        (byDesc fun c => c.created_at) := by
  rw [List.map_map]
  have hm : (Comment.row ∘ scanCommentUser) = Prod.fst := rfl
  rw [hm, List.map_insertionSort (byDesc fun x : CommentRow × User => x.1.created_at)
    (byDesc fun c : CommentRow => c.created_at) Prod.fst _ (fun a _ b _ => Iff.rfl)]
  have hf : (fun x : CommentRow × User => decide (x.1.post_id = postID)) =
      (fun c : CommentRow => decide (c.post_id = postID)) ∘ Prod.fst := rfl
  rw [hf, ← List.filter_map, joinCommentsUsers_fst s hu hc]

theorem makePost_eq (s : Store) (postID : Int) (csrfToken : String) :
    makePost s postID csrfToken =
      match (joinPostsUsers s).filter fun r =>
        decide (r.1.id = postID) && decide (r.2.DelFlg = 0) with
      | [] => .ok none
      | r :: _ =>
        .ok (some { scanPostUser r with
          Comments :=
            (((joinCommentsUsers s).filter fun x => decide (x.1.post_id = postID)).insertionSort
              (byDesc fun x => x.1.created_at)).map scanCommentUser,
          CommentCount :=
            (((((joinCommentsUsers s).filter fun x => decide (x.1.post_id = postID)).insertionSort
              (byDesc fun x => x.1.created_at)).map scanCommentUser).length : Int),
          CSRFToken := csrfToken }) := by
  unfold makePost
  cases (joinPostsUsers s).filter fun r =>
    decide (r.1.id = postID) && decide (r.2.DelFlg = 0) <;> rfl

theorem detectMime_cases (contentType mime ext : String)
    (h : detectMime contentType = some (mime, ext)) :
    (mime = "image/jpeg" ∧ ext = "jpg") ∨ (mime = "image/png" ∧ ext = "png") ∨
      (mime = "image/gif" ∧ ext = "gif") := by
  unfold detectMime at h
  split at h
  · cases h; exact Or.inl ⟨rfl, rfl⟩
  · split at h
    · cases h; exact Or.inr (Or.inl ⟨rfl, rfl⟩)
    · split at h
      · cases h; exact Or.inr (Or.inr ⟨rfl, rfl⟩)
      · cases h

theorem postIndex_accepted (s : Store) (sess : Session) (form : PostIndexForm) (now : Time)
    (file : Upload) (mime ext : String)
    (hlogin : isLogin (getSessionUser s sess) = true)
    (hcsrf : form.csrf_token = getCSRFToken sess)
    (hfile : form.file = some file)
    (hmime : detectMime file.contentType = some (mime, ext))
    (hsize : file.data.length ≤ UploadLimit)
    (hwrite : s.writeFails (imagePath s.nextPostID ext) = false) :
    postIndex s sess form now =
      (Response.redirect ("/posts/" ++ toString s.nextPostID),
        writeFile
          { s with posts := s.posts ++
                     [⟨s.nextPostID, (getSessionUser s sess).ID, mime, [], form.body, now⟩],
                   nextPostID := s.nextPostID + 1 }
          (imagePath s.nextPostID ext) file.data, sess) := by
  unfold postIndex
  simp only [hlogin, hcsrf, hfile, hmime, hwrite, Bool.not_true, ne_eq, not_true_eq_false,
    if_false, Bool.false_eq_true]
  rw [if_neg (Nat.not_lt.2 hsize)]

theorem getImage_fresh_post (s : Store) (row : PostRow) (ext path : String) (data : Bytes)
    (hfresh : ∀ p ∈ s.posts, p.id ≠ row.id)
    (hext : (ext = "jpg" ∧ row.mime = "image/jpeg") ∨ (ext = "png" ∧ row.mime = "image/png") ∨
      (ext = "gif" ∧ row.mime = "image/gif")) (n : Int) :
    (getImage (writeFile { s with posts := s.posts ++ [row], nextPostID := n } path data)
      (some row.id) ext).1 = ⟨200, some row.mime, none, .bytes row.imgdata⟩ := by
  have hnil : (s.posts.filter fun p => decide (p.id = row.id)) = [] := by
    rw [List.filter_eq_nil_iff]
    intro p hp
    simpa using hfresh p hp
  unfold getImage
  simp only [writeFile, List.filter_append, hnil, List.nil_append]
  rw [List.filter_cons_of_pos (by simp)]
  simp only [List.filter_nil, dbGet, scanPostAll]
  rw [if_pos hext]

/-! ## The claims -/

/-- C1 counterexample: alice uploads the five bytes of `jpegForm` to `feedStore`; `postIndex`
accepts the upload as post 4, and `getImage` for `4.jpg` does not respond with those bytes. -/
theorem upload_roundtrip_counterexample :
    (postIndex feedStore aliceSession jpegForm 99).1 = Response.redirect "/posts/4" ∧
      (getImage (postIndex feedStore aliceSession jpegForm 99).2.1 (some 4) "jpg").1.body ≠
        Body.bytes [1, 2, 3, 4, 5] := by
  decide

/-- C1 as amended: an upload that `postIndex` accepts (logged-in user, matching CSRF token,
supported content type, size at most `UploadLimit`, writable image directory) is answered by a
redirect to the new post, whose identifier is the `AUTO_INCREMENT` counter; the file
`{pid}.{ext}` of the image directory then holds exactly the uploaded bytes, and `getImage` for
that identifier and extension answers 200 with the stored MIME type and the row's inline
bytes, which are empty. -/
theorem postIndex_then_getImage (s : Store) (sess : Session) (form : PostIndexForm) (now : Time)
    (file : Upload) (mime ext : String)
    (hfresh : PostCounterFresh s)
    (hlogin : isLogin (getSessionUser s sess) = true)
    (hcsrf : form.csrf_token = getCSRFToken sess)
    (hfile : form.file = some file)
    (hmime : detectMime file.contentType = some (mime, ext))
    (hsize : file.data.length ≤ UploadLimit)
    (hwrite : s.writeFails (imagePath s.nextPostID ext) = false) :
    (postIndex s sess form now).1 = Response.redirect ("/posts/" ++ toString s.nextPostID) ∧
      readFile (postIndex s sess form now).2.1 (imagePath s.nextPostID ext) = some file.data ∧
      (getImage (postIndex s sess form now).2.1 (some s.nextPostID) ext).1 =
        ⟨200, some mime, none, .bytes []⟩ := by
  rw [postIndex_accepted s sess form now file mime ext hlogin hcsrf hfile hmime hsize hwrite]
  refine ⟨rfl, ?_, ?_⟩
  · simp [readFile, writeFile]
  · have hext : (ext = "jpg" ∧ mime = "image/jpeg") ∨ (ext = "png" ∧ mime = "image/png") ∨
        (ext = "gif" ∧ mime = "image/gif") := by
      rcases detectMime_cases _ _ _ hmime with h | h | h
      · exact Or.inl ⟨h.2, h.1⟩
      · exact Or.inr (Or.inl ⟨h.2, h.1⟩)
      · exact Or.inr (Or.inr ⟨h.2, h.1⟩)
    exact getImage_fresh_post s
      ⟨s.nextPostID, (getSessionUser s sess).ID, mime, [], form.body, now⟩ ext _ file.data
      (fun p hp => ne_of_lt (hfresh p hp)) hext (s.nextPostID + 1)

/-- C1 witness: the upload of `jpegForm` to `feedStore` is stored as `4.jpg`, and `getImage`
answers with an empty JPEG body. -/
theorem postIndex_then_getImage_witness :
    (postIndex feedStore aliceSession jpegForm 99).1 =
        Response.redirect ("/posts/" ++ toString feedStore.nextPostID) ∧
      readFile (postIndex feedStore aliceSession jpegForm 99).2.1
        (imagePath feedStore.nextPostID "jpg") = some [1, 2, 3, 4, 5] ∧
      (getImage (postIndex feedStore aliceSession jpegForm 99).2.1
        (some feedStore.nextPostID) "jpg").1 = ⟨200, some "image/jpeg", none, .bytes []⟩ :=
  postIndex_then_getImage feedStore aliceSession jpegForm 99 ⟨"image/jpeg", [1, 2, 3, 4, 5]⟩
    "image/jpeg" "jpg" (by decide) (by decide) (by decide) rfl (by decide) (by decide) rfl

/-- C2 at the failing input: post 1 of `readOnlyStore` is a JPEG and the image directory
cannot be written; `getImage` for `1.png` returns after the failed `os.WriteFile` without
writing a status, so the response is 200 with an empty body, not 404. Where the write
succeeds (`feedStore`) the same request is answered 404. -/
theorem getImage_mismatch_write_failure :
    (readOnlyStore.posts.filter fun p => decide (p.id = 1)).map (fun p => p.mime) =
        ["image/jpeg"] ∧
      (getImage readOnlyStore (some 1) "png").1 = Response.silent ∧
      (getImage readOnlyStore (some 1) "png").1.status = 200 ∧
      (getImage feedStore (some 1) "png").1.status = StatusNotFound := by
  decide

/-- C3 at the failing input: post 1 of `feedStore` has four comment rows, and the view-model
of post 1 produced by `getIndex`, by `getPosts` and by `getAccountName` has `CommentCount`
3, the length of the capped comment list. -/
theorem feed_commentCount_capped :
    (feedStore.comments.filter fun c => decide (c.post_id = 1)).length = 4 ∧
      ((getIndex feedStore aliceSession).1.viewModels.map fun p => (p.ID, p.CommentCount)) =
        [(3, 0), (1, 3)] ∧
      ((getPosts feedStore (.cursor 12)).viewModels.map fun p => (p.ID, p.CommentCount)) =
        [(3, 0), (1, 3)] ∧
      ((getAccountName feedStore aliceSession "alice").viewModels.map
        fun p => (p.ID, p.CommentCount)) = [(1, 3)] := by
  decide

/-- C4 at the failing input: `feedStore` has no user `dave` and a banned user `bob`; for both
names `db.Get` yields `sql.ErrNoRows` and `getAccountName` returns without writing a status,
so the response is 200 with an empty body, not 404. -/
theorem getAccountName_missing_or_banned :
    (feedStore.users.filter fun u => decide (u.AccountName = "dave")) = [] ∧
      (feedStore.users.filter fun u => decide (u.AccountName = "bob")).map (fun u => u.DelFlg)
        = [1] ∧
      getAccountName feedStore aliceSession "dave" = Response.silent ∧
      getAccountName feedStore aliceSession "bob" = Response.silent ∧
      Response.silent.status = 200 ∧ Response.silent.status ≠ StatusNotFound := by
  decide

/-- C5: for every store, page size and cursor timestamp, `getLatestPosts` and the post query
of `getPosts` return a list of at most `pageSize` posts, and every returned post is a row of
`posts` joined with the row of its author, whose `del_flg` is 0; so a post whose author is
banned is not returned although its row exists. -/
theorem feed_bounded_and_unbanned (s : Store) (pageSize : Nat) (t : Time) :
    (∃ posts, getLatestPosts s (pageSize : Int) = .ok posts ∧ posts.length ≤ pageSize ∧
      ∀ p ∈ posts, p.User.DelFlg = 0 ∧
        ∃ row ∈ s.posts, ∃ u ∈ s.users, row.user_id = u.ID ∧ p = scanPostUser (row, u)) ∧
    (∃ posts, selectPostsBefore s t (pageSize : Int) = .ok posts ∧ posts.length ≤ pageSize ∧
      ∀ p ∈ posts, p.User.DelFlg = 0 ∧
        ∃ row ∈ s.posts, ∃ u ∈ s.users, row.user_id = u.ID ∧ p = scanPostUser (row, u)) := by
  refine ⟨⟨_, getLatestPosts_natCast s pageSize, ?_, ?_⟩,
    ⟨_, selectPostsBefore_natCast s t pageSize, ?_, ?_⟩⟩
  · rw [List.length_map, List.length_take]
    exact Nat.min_le_left _ _
  · exact fun p hp => feed_rows_unbanned s _ pageSize (fun r hr => by simpa using hr) p hp
  · rw [List.length_map, List.length_take]
    exact Nat.min_le_left _ _
  · exact fun p hp => feed_rows_unbanned s _ pageSize
      (fun r hr => by
        simp only [Bool.and_eq_true, decide_eq_true_eq] at hr
        exact hr.2) p hp

/-- C6 counterexample: in `orphanStore` the comment query returns comment 2, whose author 9 is
not among the users the author query returns, and `fetchCommentsAndUsers` returns no error
but a mapping that holds comment 2 with the zero-value author. -/
theorem unresolved_author_counterexample :
    (getCommentsForPosts orphanStore [1] 3).1 =
        .ok [⟨2, 1, 9, "b", 6, User.zero⟩, ⟨1, 1, 1, "a", 5, User.zero⟩] ∧
      (getUsersByIDs orphanStore [9, 1]).1 = .ok [⟨1, "alice", "", 0, 0, 0⟩] ∧
      (fetchCommentsAndUsers orphanStore [1] 3).1 =
        .ok [(1, [⟨2, 1, 9, "b", 6, User.zero⟩, ⟨1, 1, 1, "a", 5, ⟨1, "alice", "", 0, 0, 0⟩⟩])] := by
  refine ⟨?_, ?_, ?_⟩ <;> rfl

/-- C6 as amended: `fetchCommentsAndUsers` returns a mapping and no error for every list of
post identifiers; a comment returned by the comment query whose author identifier is not
among the users returned by the author query is kept in the sequence of its post, with the
zero-value author. -/
theorem fetchCommentsAndUsers_keeps_unresolved (s : Store) (postIDs : List Int)
    (limitPerPost : Int) :
    ∃ comments commentUsers m,
      (getCommentsForPosts s postIDs limitPerPost).1 = .ok comments ∧
      (getUsersByIDs s (commentUserIDs comments)).1 = .ok commentUsers ∧
      (fetchCommentsAndUsers s postIDs limitPerPost).1 = .ok m ∧
      ∀ c ∈ comments, (∀ u ∈ commentUsers, u.ID ≠ c.UserID) →
        c.User = User.zero ∧ c ∈ GoMap.getSlice m c.PostID := by
  obtain ⟨comments, commentUsers, h1, h2, h3⟩ := fetchCommentsAndUsers_fst s postIDs limitPerPost
  refine ⟨comments, commentUsers, _, h1, h2, h3, ?_⟩
  intro c hc hun
  constructor
  · rw [getCommentsForPosts_fst] at h1
    cases h1
    split at hc
    · cases hc
    · obtain ⟨r, _, rfl⟩ := List.mem_map.1 hc
      rfl
  · rw [getSlice_groupByPost]
    refine List.mem_filter.2 ⟨?_, by simp⟩
    have hnone := (get?_commentUserMap_none commentUsers c.UserID).2 hun
    have hc2 : attachUser (commentUserMap commentUsers) c = c := by
      unfold attachUser
      rw [hnone]
    exact List.mem_map.2 ⟨c, hc, hc2⟩

/-- C7 counterexample: post 3 of `feedStore` has no comments; for the non-empty list `[3]`
`fetchCommentsAndUsers` issues the comment query and no author query. -/
theorem author_query_counterexample :
    (fetchCommentsAndUsers feedStore [3] 3).2 = [Query.selectComments [3] 3] := by
  decide

/-- C7 as amended: for an empty list `fetchCommentsAndUsers` issues no query and returns an
empty mapping; for a non-empty list it issues exactly one comment query, followed by exactly
one author query when the comment query returned at least one comment and by no author query
when it returned none. -/
theorem fetchCommentsAndUsers_queries (s : Store) (postIDs : List Int) (limitPerPost : Int) :
    fetchCommentsAndUsers s [] limitPerPost = (.ok [], []) ∧
      (fetchCommentsAndUsers s postIDs limitPerPost).2 =
        if postIDs = [] then []
        else Query.selectComments postIDs limitPerPost ::
          (if selectComments s postIDs limitPerPost = [] then []
           else [Query.selectUsers
             (commentUserIDs ((selectComments s postIDs limitPerPost).map scanComment))]) := by
  refine ⟨rfl, ?_⟩
  cases postIDs with
  | nil => rfl
  | cons pid rest =>
    rw [if_neg (List.cons_ne_nil pid rest)]
    unfold fetchCommentsAndUsers getCommentsForPosts
    simp only [List.length_cons, Nat.succ_ne_zero, if_false]
    by_cases hnil : selectComments s (pid :: rest) limitPerPost = []
    · rw [hnil]
      rfl
    · have hne : ¬ (commentUserIDs ((selectComments s (pid :: rest) limitPerPost).map
          scanComment)).length = 0 := by
        rw [List.length_eq_zero]
        unfold commentUserIDs
        rw [List.dedup_eq_nil, List.map_eq_nil_iff, List.map_eq_nil_iff]
        exact hnil
      rw [if_neg hnil]
      unfold getUsersByIDs
      rw [if_neg hne]
      rfl

/-- C8 counterexample: comments 1 and 2 of post 1 in `feedStore` share a creation time; the
sequence `fetchCommentsAndUsers` maps post 1 to ends with comment 1, while the first three
comments in creation-time-descending, identifier-descending order end with comment 2. -/
theorem tie_break_counterexample :
    ((fetchCommentsAndUsers feedStore [1] 3).1.toOption.map
        fun m => (GoMap.getSlice m 1).map Comment.row) =
        some [⟨4, 1, 3, "d", 7⟩, ⟨3, 1, 2, "c", 6⟩, ⟨1, 1, 3, "a", 5⟩] ∧
      ((feedStore.comments.filter fun c => decide (c.post_id = 1)).insertionSort
        createdThenIdDesc).take 3 =
        [⟨4, 1, 3, "d", 7⟩, ⟨3, 1, 2, "c", 6⟩, ⟨2, 1, 1, "b", 5⟩] := by
  decide

/-- C8 as amended: for a post identifier of the list, the sequence `fetchCommentsAndUsers`
maps it to is the first `limitPerPost` of that post's comments sorted by creation time
descending, comments of equal creation time staying in the order of the table; it has at most
`limitPerPost` elements and is ordered most-recent first. -/
theorem fetchCommentsAndUsers_most_recent (s : Store) (postIDs : List Int)
    (limitPerPost pid : Int) (hpid : pid ∈ postIDs) :
    ∃ m, (fetchCommentsAndUsers s postIDs limitPerPost).1 = .ok m ∧
      (GoMap.getSlice m pid).map Comment.row =
        ((s.comments.filter fun c => decide (c.post_id = pid)).insertionSort
          (byDesc fun c => c.created_at)).take limitPerPost.toNat ∧
      (GoMap.getSlice m pid).length ≤ limitPerPost.toNat ∧
      (GoMap.getSlice m pid).Sorted (fun a b => b.CreatedAt ≤ a.CreatedAt) := by
  obtain ⟨comments, commentUsers, h1, _, h3⟩ := fetchCommentsAndUsers_fst s postIDs limitPerPost
  have hne : postIDs ≠ [] := List.ne_nil_of_mem hpid
  rw [getCommentsForPosts_fst, if_neg hne] at h1
  cases h1
  have hrow := getSlice_fetch_row s postIDs limitPerPost pid commentUsers hpid
  refine ⟨_, h3, hrow, ?_, ?_⟩
  · have hlen := congrArg List.length hrow
    rw [List.length_map, List.length_take] at hlen
    rw [hlen]
    exact Nat.min_le_left _ _
  · have hs : (((s.comments.filter fun c => decide (c.post_id = pid)).insertionSort
        (byDesc fun c => c.created_at)).take limitPerPost.toNat).Sorted
          (byDesc fun c : CommentRow => c.created_at) :=
      List.Pairwise.sublist (List.take_sublist _ _) (List.sorted_insertionSort _ _)
    rw [← hrow] at hs
    exact List.pairwise_map.1 hs

/-- C8 witness: post 1 of `feedStore` with a limit of 3. -/
theorem fetchCommentsAndUsers_most_recent_witness :
    ∃ m, (fetchCommentsAndUsers feedStore [1] 3).1 = .ok m ∧
      (GoMap.getSlice m 1).map Comment.row =
        [⟨4, 1, 3, "d", 7⟩, ⟨3, 1, 2, "c", 6⟩, ⟨1, 1, 3, "a", 5⟩] ∧
      (GoMap.getSlice m 1).length ≤ 3 := by
  obtain ⟨m, h1, h2, h3, _⟩ := fetchCommentsAndUsers_most_recent feedStore [1] 3 1 (by decide)
  exact ⟨m, h1, h2.trans (by decide), h3⟩

/-- C9: over a store with primary keys on users and posts and an author row for every post,
`makePost` returns `nil, nil` exactly when no post has the identifier or the post's author is
banned; it never returns a fault; and for a post with an unbanned author it returns a
view-model of that post stamped with the given CSRF token. -/
theorem makePost_notFound_iff (s : Store) (postID : Int) (csrfToken : String)
    (hu : UserIDsUnique s) (hp : PostIDsUnique s) (ha : PostAuthorsExist s) :
    (makePost s postID csrfToken = .ok none ↔
      ((¬ ∃ p ∈ s.posts, p.id = postID) ∨
        ∃ p ∈ s.posts, p.id = postID ∧ ∃ u ∈ s.users, u.ID = p.user_id ∧ u.DelFlg ≠ 0)) ∧
    (∀ err, makePost s postID csrfToken ≠ .error err) ∧
    ((∃ p ∈ s.posts, p.id = postID ∧ ∃ u ∈ s.users, u.ID = p.user_id ∧ u.DelFlg = 0) →
      ∃ post, makePost s postID csrfToken = .ok (some post) ∧
        post.ID = postID ∧ post.CSRFToken = csrfToken) := by
  rw [makePost_eq]
  refine ⟨?_, ?_, ?_⟩
  · constructor
    · intro h
      have hnil : ((joinPostsUsers s).filter fun r =>
          decide (r.1.id = postID) && decide (r.2.DelFlg = 0)) = [] := by
        revert h
        cases (joinPostsUsers s).filter fun r =>
          decide (r.1.id = postID) && decide (r.2.DelFlg = 0) with
        | nil => intro _; rfl
        | cons r rs => intro h; cases h
      by_cases hex : ∃ p ∈ s.posts, p.id = postID
      · obtain ⟨p, hpm, hpid⟩ := hex
        obtain ⟨u, hum, huid⟩ := ha p hpm
        refine Or.inr ⟨p, hpm, hpid, u, hum, huid, ?_⟩
        intro hdel
        have hmem : (p, u) ∈ joinPostsUsers s := (mem_joinPostsUsers s (p, u)).2 ⟨hpm, hum, huid.symm⟩
        have := (List.filter_eq_nil_iff.1 hnil) (p, u) hmem
        simp [hpid, hdel] at this
      · exact Or.inl hex
    · intro h
      have hnil : ((joinPostsUsers s).filter fun r =>
          decide (r.1.id = postID) && decide (r.2.DelFlg = 0)) = [] := by
        rw [List.filter_eq_nil_iff]
        intro r hr hf
        simp only [Bool.and_eq_true, decide_eq_true_eq] at hf
        obtain ⟨hr1, hr2, hr3⟩ := (mem_joinPostsUsers s r).1 hr
        rcases h with h | ⟨p, hpm, hpid, u, hum, huid, hdel⟩
        · exact h ⟨r.1, hr1, hf.1⟩
        · have e1 : r.1 = p := List.inj_on_of_nodup_map hp hr1 hpm (hf.1.trans hpid.symm)
          have e2 : r.2 = u :=
            List.inj_on_of_nodup_map hu hr2 hum (by rw [← hr3, e1, huid])
          exact hdel (e2 ▸ hf.2)
      rw [hnil]
  · intro err
    cases (joinPostsUsers s).filter fun r =>
      decide (r.1.id = postID) && decide (r.2.DelFlg = 0) with
    | nil => intro h; cases h
    | cons r rs => intro h; cases h
  · rintro ⟨p, hpm, hpid, u, hum, huid, hdel⟩
    have hmem : (p, u) ∈ (joinPostsUsers s).filter fun r =>
        decide (r.1.id = postID) && decide (r.2.DelFlg = 0) :=
      List.mem_filter.2 ⟨(mem_joinPostsUsers s (p, u)).2 ⟨hpm, hum, huid.symm⟩, by simp [hpid, hdel]⟩
    cases hl : (joinPostsUsers s).filter fun r =>
      decide (r.1.id = postID) && decide (r.2.DelFlg = 0) with
    | nil => rw [hl] at hmem; cases hmem
    | cons r rs =>
      have hr : r ∈ (joinPostsUsers s).filter fun r =>
          decide (r.1.id = postID) && decide (r.2.DelFlg = 0) := by
        rw [hl]; exact List.mem_cons_self r rs
      have hf := (List.mem_filter.1 hr).2
      simp only [Bool.and_eq_true, decide_eq_true_eq] at hf
      exact ⟨_, rfl, hf.1, rfl⟩

/-- C9 witness: in `feedStore` post 2 belongs to the banned bob and post 1 to alice. -/
theorem makePost_notFound_iff_witness :
    makePost feedStore 2 "tok" = .ok none ∧
      ∃ post, makePost feedStore 1 "tok" = .ok (some post) ∧ post.ID = 1 ∧
        post.CSRFToken = "tok" :=
  have h := makePost_notFound_iff feedStore 2 "tok" (by decide) (by decide) (by decide)
  have h1 := makePost_notFound_iff feedStore 1 "tok" (by decide) (by decide) (by decide)
  ⟨h.1.2 (Or.inr ⟨⟨2, 2, "image/png", [], "second", 11⟩, by decide, rfl,
      ⟨2, "bob", "y", 0, 1, 2⟩, by decide, rfl, by decide⟩),
    h1.2.2 ⟨⟨1, 1, "image/jpeg", [], "first", 10⟩, by decide, rfl,
      ⟨1, "alice", "x", 0, 0, 1⟩, by decide, rfl, rfl⟩⟩

theorem joinCommentsUsers_fst_unique_aux (users : List User)
    (hn : (users.map fun u => u.ID).Nodup) (cs : List CommentRow) :
    ((cs.map fun c =>
        (users.filter fun u => decide (c.user_id = u.ID)).map fun u => (c, u)).flatten).map
      Prod.fst = cs.filter fun c => users.any fun u => decide (c.user_id = u.ID) := by
  induction cs with
  | nil => rfl
  | cons c cs ih =>
    rw [List.map_cons, List.flatten_cons, List.map_append, ih]
    by_cases hex : ∃ u ∈ users, u.ID = c.user_id
    · obtain ⟨u, hu, hid⟩ := hex
      have h1 := filter_userID_eq_singleton users hn u hu
      rw [hid] at h1
      have hany : (users.any fun v => decide (c.user_id = v.ID)) = true :=
        List.any_eq_true.2 ⟨u, hu, by simpa using hid.symm⟩
      have hc : ((c :: cs).filter fun c => users.any fun u => decide (c.user_id = u.ID)) =
          c :: cs.filter fun c => users.any fun u => decide (c.user_id = u.ID) := by
        rw [List.filter_cons, if_pos hany]
      rw [h1, hc]
      rfl
    · have hnil : (users.filter fun v => decide (c.user_id = v.ID)) = [] := by
        rw [List.filter_eq_nil_iff]
        intro v hv hid
        exact hex ⟨v, hv, (by simpa using hid : c.user_id = v.ID).symm⟩
      have hany : ¬ (users.any fun v => decide (c.user_id = v.ID)) = true := by
        intro h
        obtain ⟨v, hv, hid⟩ := List.any_eq_true.1 h
        exact hex ⟨v, hv, (by simpa using hid : c.user_id = v.ID).symm⟩
      have hc : ((c :: cs).filter fun c => users.any fun u => decide (c.user_id = u.ID)) =
          cs.filter fun c => users.any fun u => decide (c.user_id = u.ID) := by
        rw [List.filter_cons, if_neg hany]
      rw [hnil, hc]
      rfl

theorem makePost_comments_rows_unique (s : Store) (postID : Int) (hu : UserIDsUnique s) :
    ((((joinCommentsUsers s).filter fun x => decide (x.1.post_id = postID)).insertionSort
        (byDesc fun x => x.1.created_at)).map scanCommentUser).map Comment.row =
      (commentsWithAuthor s postID).insertionSort (byDesc fun c => c.created_at) := by
  rw [List.map_map]
  have hm : (Comment.row ∘ scanCommentUser) = Prod.fst := rfl
  rw [hm, List.map_insertionSort (byDesc fun x : CommentRow × User => x.1.created_at)
    (byDesc fun c : CommentRow => c.created_at) Prod.fst _ (fun a _ b _ => Iff.rfl)]
  have hf : (fun x : CommentRow × User => decide (x.1.post_id = postID)) =
      (fun c : CommentRow => decide (c.post_id = postID)) ∘ Prod.fst := rfl
  have hj : (joinCommentsUsers s).map Prod.fst =
      s.comments.filter fun c => s.users.any fun u => decide (c.user_id = u.ID) :=
    joinCommentsUsers_fst_unique_aux s.users hu s.comments
  rw [hf, ← List.filter_map, hj, List.filter_filter]
  rfl

/-- C10 counterexample: post 1 of `orphanStore` belongs to the unbanned alice and has two
comment rows; comment 2 was written by user 9, who has no row, and the view-model `makePost`
returns carries comment 1 only, with `CommentCount` 1. -/
theorem orphan_comment_counterexample :
    (orphanStore.comments.filter fun c => decide (c.post_id = 1)) =
        [⟨1, 1, 1, "a", 5⟩, ⟨2, 1, 9, "b", 6⟩] ∧
      ∃ post, makePost orphanStore 1 "tok" = .ok (some post) ∧
        post.Comments.map Comment.row = [⟨1, 1, 1, "a", 5⟩] ∧ post.CommentCount = 1 :=
  ⟨by decide, _, rfl, by decide, by decide⟩

/-- C10 as amended: over a store with a primary key on users, for a post with an unbanned
author `makePost` returns a view-model whose comments are exactly the comment rows of that
post whose author has a row in `users` (each once, without limit), in
creation-time-descending order, each with its author resolved, and whose `CommentCount` is
the number of those rows. -/
theorem makePost_comments_with_author (s : Store) (postID : Int) (csrfToken : String)
    (hu : UserIDsUnique s)
    (hpost : ∃ p ∈ s.posts, p.id = postID ∧ ∃ u ∈ s.users, u.ID = p.user_id ∧ u.DelFlg = 0) :
    ∃ post, makePost s postID csrfToken = .ok (some post) ∧
      post.Comments.map Comment.row =
        (commentsWithAuthor s postID).insertionSort (byDesc fun c => c.created_at) ∧
      (post.Comments.map Comment.row).Perm (commentsWithAuthor s postID) ∧
      post.Comments.Sorted (fun a b => b.CreatedAt ≤ a.CreatedAt) ∧
      (∀ c ∈ post.Comments, ∃ u ∈ s.users, u.ID = c.UserID ∧ c.User = scanUserName u) ∧
      post.CommentCount = ((commentsWithAuthor s postID).length : Int) := by
  obtain ⟨p, hpm, hpid, u, hum, huid, hdel⟩ := hpost
  have hmem : (p, u) ∈ (joinPostsUsers s).filter fun r =>
      decide (r.1.id = postID) && decide (r.2.DelFlg = 0) :=
    List.mem_filter.2 ⟨(mem_joinPostsUsers s (p, u)).2 ⟨hpm, hum, huid.symm⟩, by simp [hpid, hdel]⟩
  have hrows := makePost_comments_rows_unique s postID hu
  rw [makePost_eq]
  cases hl : (joinPostsUsers s).filter fun r =>
    decide (r.1.id = postID) && decide (r.2.DelFlg = 0) with
  | nil => rw [hl] at hmem; cases hmem
  | cons r rs =>
    refine ⟨_, rfl, hrows, ?_, ?_, ?_, ?_⟩
    · rw [hrows]
      exact List.perm_insertionSort _ _
    · have hs := List.sorted_insertionSort (byDesc fun c : CommentRow => c.created_at)
        (commentsWithAuthor s postID)
      rw [← hrows] at hs
      exact (List.pairwise_map.1 hs)
    · intro c hcm
      obtain ⟨x, hx, rfl⟩ := List.mem_map.1 hcm
      have hx2 := (List.mem_filter.1 ((List.mem_insertionSort _).1 hx)).1
      obtain ⟨h1, h2⟩ := mem_joinCommentsUsers s x hx2
      exact ⟨x.2, h1, h2, rfl⟩
    · have hlen := congrArg List.length hrows
      rw [List.length_map, List.length_insertionSort] at hlen
      show ((_ : Nat) : Int) = _
      exact congrArg Int.ofNat hlen

/-- C10 witness: post 1 of `feedStore` carries its four comments, whose authors all have rows,
most recent first. -/
theorem makePost_comments_with_author_witness :
    ∃ post, makePost feedStore 1 "tok" = .ok (some post) ∧
      post.Comments.map Comment.row =
        [⟨4, 1, 3, "d", 7⟩, ⟨3, 1, 2, "c", 6⟩, ⟨1, 1, 3, "a", 5⟩, ⟨2, 1, 1, "b", 5⟩] ∧
      post.CommentCount = 4 := by
  obtain ⟨post, h1, h2, _, _, _, h3⟩ := makePost_comments_with_author feedStore 1 "tok"
    (by decide) ⟨⟨1, 1, "image/jpeg", [], "first", 10⟩, by decide, rfl,
      ⟨1, "alice", "x", 0, 0, 1⟩, by decide, rfl, rfl⟩
  exact ⟨post, h1, h2.trans (by decide), h3.trans (by decide)⟩

theorem detectMime_eq_none (contentType : String)
    (hjpeg : stringsContains contentType "jpeg" = false)
    (hpng : stringsContains contentType "png" = false)
    (hgif : stringsContains contentType "gif" = false) : detectMime contentType = none := by
  simp [detectMime, hjpeg, hpng, hgif]

theorem postIndex_inserted_row (s : Store) (sess : Session) (form : PostIndexForm) (now : Time) :
    (postIndex s sess form now).2.1.posts = s.posts ∨
      ∃ row, row.mime ∈ supportedMimes ∧ (postIndex s sess form now).2.1.posts = s.posts ++ [row] := by
  unfold postIndex
  simp only []
  split
  · exact Or.inl rfl
  · split
    · exact Or.inl rfl
    · split
      · exact Or.inl rfl
      · rename_i file _
        split
        · exact Or.inl rfl
        · rename_i mime ext hmime
          have hsup : mime ∈ supportedMimes := by
            rcases detectMime_cases _ _ _ hmime with h | h | h <;> simp [supportedMimes, h.1]
          split
          · exact Or.inl rfl
          · split
            · exact Or.inr ⟨_, hsup, rfl⟩
            · exact Or.inr ⟨_, hsup, rfl⟩

/-- C11 counterexample: the content type `image/pjpeg` is none of the three MIME types, and
`postIndex` accepts the upload: it inserts post 4 with MIME type `image/jpeg` and writes
`4.jpg`. -/
theorem content_type_counterexample :
    "image/pjpeg" ∉ supportedMimes ∧
      (postIndex feedStore aliceSession pjpegForm 99).1 = Response.redirect "/posts/4" ∧
      (postIndex feedStore aliceSession pjpegForm 99).2.1.posts =
        feedStore.posts ++ [⟨4, 1, "image/jpeg", [], "hi", 99⟩] ∧
      (postIndex feedStore aliceSession pjpegForm 99).2.1.files =
        [("../public/image/4.jpg", [1, 2, 3])] := by
  decide

/-- C11 as amended: an upload whose declared content type contains none of the strings
`jpeg`, `png` and `gif` is rejected before any write: the store (rows and files) is unchanged,
and for a logged-in user with the matching CSRF token the response is a redirect to `/` with
the notice about image formats. Whatever the request, `postIndex` leaves table `posts` as it
is or appends one row whose MIME type is one of the three supported values. -/
theorem postIndex_rejects_unsupported (s : Store) (sess : Session) (form : PostIndexForm)
    (now : Time) (file : Upload) (hfile : form.file = some file)
    (hjpeg : stringsContains file.contentType "jpeg" = false)
    (hpng : stringsContains file.contentType "png" = false)
    (hgif : stringsContains file.contentType "gif" = false) :
    (postIndex s sess form now).2.1 = s ∧
      (isLogin (getSessionUser s sess) = true → form.csrf_token = getCSRFToken sess →
        (postIndex s sess form now).1 = Response.redirect "/" ∧
          (postIndex s sess form now).2.2 =
            { sess with notice := some "投稿できる画像形式はjpgとpngとgifだけです" }) ∧
      ∀ (sess2 : Session) (form2 : PostIndexForm) (now2 : Time),
        (postIndex s sess2 form2 now2).2.1.posts = s.posts ∨
          ∃ row, row.mime ∈ supportedMimes ∧
            (postIndex s sess2 form2 now2).2.1.posts = s.posts ++ [row] := by
  have hnone := detectMime_eq_none file.contentType hjpeg hpng hgif
  refine ⟨?_, ?_, fun sess2 form2 now2 => postIndex_inserted_row s sess2 form2 now2⟩
  · unfold postIndex
    simp only [hfile, hnone]
    split_ifs <;> rfl
  · intro hlogin hcsrf
    unfold postIndex
    simp only [hfile, hnone, hlogin, hcsrf, Bool.not_true, ne_eq, not_true_eq_false, if_false,
      Bool.false_eq_true, and_self]

/-- C11 witness: alice's upload of `textForm` (content type `text/plain`) to `feedStore`. -/
theorem postIndex_rejects_unsupported_witness :
    (postIndex feedStore aliceSession textForm 99).2.1.posts = feedStore.posts ∧
      (postIndex feedStore aliceSession textForm 99).2.1.files = feedStore.files ∧
      (postIndex feedStore aliceSession textForm 99).1 = Response.redirect "/" :=
  have h := postIndex_rejects_unsupported feedStore aliceSession textForm 99
    ⟨"text/plain", [1, 2, 3]⟩ rfl (by decide) (by decide) (by decide)
  ⟨congrArg Store.posts h.1, congrArg Store.files h.1, (h.2.1 (by decide) (by decide)).1⟩

theorem limitRows_postsPerPage {α : Type} (rows : List α) :
    limitRows rows postsPerPage = .ok (rows.take 20) :=
  limitRows_natCast rows 20

theorem commentsReceived_eq (s : Store) (userID : Int) :
    commentsReceived s userID =
      s.comments.filter fun c => decide (c.post_id ∈
        (s.posts.filter fun p => decide (p.user_id = userID)).map fun p => p.id) := by
  unfold commentsReceived
  apply List.filter_congr
  intro c _
  rw [Bool.eq_iff_iff]
  simp only [List.any_eq_true, Bool.and_eq_true, decide_eq_true_eq, List.mem_map,
    List.mem_filter]
  constructor
  · rintro ⟨p, hp, hu, hid⟩
    exact ⟨p, ⟨hp, hu⟩, hid⟩
  · rintro ⟨p, ⟨hp, hu⟩, hid⟩
    exact ⟨p, hp, hu, hid⟩

theorem loader_idSet_ne_nil (s : Store) (postIDs : List Int) (limitPerPost : Int) :
    ∀ q ∈ (fetchCommentsAndUsers s postIDs limitPerPost).2,
      (Statement.loader q).idSet ≠ some [] := by
  cases postIDs with
  | nil => intro q hq; cases hq
  | cons pid rest =>
    unfold fetchCommentsAndUsers getCommentsForPosts
    simp only [List.length_cons, Nat.succ_ne_zero, if_false]
    by_cases hnil : selectComments s (pid :: rest) limitPerPost = []
    · rw [hnil]
      intro q hq
      have hq2 : q = Query.selectComments (pid :: rest) limitPerPost := by
        simpa [getUsersByIDs, commentUserIDs] using hq
      subst hq2
      simp [Statement.idSet]
    · have hne : ¬ (commentUserIDs ((selectComments s (pid :: rest) limitPerPost).map
          scanComment)).length = 0 := by
        rw [List.length_eq_zero]
        unfold commentUserIDs
        rw [List.dedup_eq_nil, List.map_eq_nil_iff, List.map_eq_nil_iff]
        exact hnil
      unfold getUsersByIDs
      rw [if_neg hne]
      intro q hq
      have hq2 : q = Query.selectComments (pid :: rest) limitPerPost ∨
          q = Query.selectUsers (commentUserIDs
            ((selectComments s (pid :: rest) limitPerPost).map scanComment)) := by
        simpa using hq
      rcases hq2 with h | h
      · subst h
        simp [Statement.idSet]
      · subst h
        simp only [Statement.idSet, ne_eq, Option.some.injEq]
        exact fun h0 => hne (by rw [h0]; rfl)

theorem getAccountNameTraced_fst (s : Store) (sess : Session) (accountName : String) :
    (getAccountNameTraced s sess accountName).1 = getAccountName s sess accountName := by
  unfold getAccountNameTraced getAccountName
  split
  · rfl
  · split
    · rfl
    · split
      · rfl
      · simp only []
        split
        · rfl
        · split_ifs <;> rfl
/-- C12: when the account lookup of `getAccountName` finds the unbanned user `user`, the profile
is rendered with `PostCount` the number of all post rows of that user and `CommentedCount` the
number of comment rows whose post reference is a post of that user, whatever the page shows;
with zero posts the post list is empty and both counts are 0; and no statement the handler
issues has an empty identifier set. -/
theorem getAccountName_counts (s : Store) (sess : Session) (accountName : String) (user : User)
    (hget : dbGet (s.users.filter fun u =>
      decide (u.AccountName = accountName) && decide (u.DelFlg = 0)) = .ok user)
    (hid : user.ID ≠ 0) :
    ∃ posts commentCount me,
      getAccountName s sess accountName =
        Response.execute (.user posts user
          ((s.posts.filter fun p => decide (p.user_id = user.ID)).length : Int) commentCount
          ((commentsReceived s user.ID).length : Int) me) ∧
      posts.length ≤ 20 ∧
      ((s.posts.filter fun p => decide (p.user_id = user.ID)) = [] →
        posts = [] ∧ commentsReceived s user.ID = []) ∧
      (getAccountNameTraced s sess accountName).1 = getAccountName s sess accountName ∧
      ∀ st ∈ (getAccountNameTraced s sess accountName).2, st.idSet ≠ some [] := by
  obtain ⟨comments, users, _, _, h3⟩ := fetchCommentsAndUsers_fst s
    ((((s.posts.filter fun p => decide (p.user_id = user.ID)).insertionSort
      (byDesc fun p => p.created_at)).take 20).map scanPost |>.map fun p => p.ID) 3
  have hcount : (if ((((s.posts.filter fun p => decide (p.user_id = user.ID)).map
        fun p => p.id).length : Int)) > 0 then
        ((s.comments.filter fun c => decide (c.post_id ∈
          (s.posts.filter fun p => decide (p.user_id = user.ID)).map fun p => p.id)).length : Int)
      else 0) = ((commentsReceived s user.ID).length : Int) := by
    rw [commentsReceived_eq]
    split
    · rfl
    · rename_i hz
      have hnil : (s.posts.filter fun p => decide (p.user_id = user.ID)) = [] := by
        rw [← List.length_eq_zero]
        simp only [List.length_map] at hz
        omega
      simp [hnil]
  refine ⟨stampPosts (groupByPost (attachUsers (commentUserMap users) comments))
      (getCSRFToken sess)
      ((((s.posts.filter fun p => decide (p.user_id = user.ID)).insertionSort
        (byDesc fun p => p.created_at)).take 20).map scanPost),
    ((s.comments.filter fun c => decide (c.user_id = user.ID)).length : Int),
    getSessionUser s sess, ?_, ?_, ?_, getAccountNameTraced_fst s sess accountName, ?_⟩
  · unfold getAccountName
    rw [hget]
    simp only []
    rw [if_neg hid, limitRows_postsPerPage]
    simp only []
    rw [h3]
    simp only []
    rw [hcount, List.length_map]
  · simp only [stampPosts, List.length_map, List.length_take]
    exact Nat.min_le_left _ _
  · intro hnil
    refine ⟨?_, ?_⟩
    · simp [stampPosts, hnil]
    · rw [commentsReceived_eq, hnil]
      simp
  · unfold getAccountNameTraced
    rw [hget]
    simp only []
    rw [if_neg hid, limitRows_postsPerPage]
    simp only []
    rw [h3]
    simp only []
    intro st hst
    simp only [List.mem_append, List.mem_cons, List.mem_map, List.mem_singleton,
      List.not_mem_nil, or_false] at hst
    rcases hst with ((((h | h) | ⟨q, hq, rfl⟩) | (h | h)) | h) | h
    · subst h; simp [Statement.idSet]
    · subst h; simp [Statement.idSet]
    · exact loader_idSet_ne_nil s _ 3 q hq
    · subst h; simp [Statement.idSet]
    · subst h; simp [Statement.idSet]
    · split at h
      · rename_i hpos
        simp only [List.mem_singleton] at h
        subst h
        simp only [Statement.idSet, ne_eq, Option.some.injEq]
        intro h0
        rw [h0] at hpos
        simp at hpos
      · cases h
    · unfold getSessionUserStatements at h
      split at h
      · cases h
      · simp only [List.mem_singleton] at h
        subst h
        simp [Statement.idSet]

/-- C12 witness: alice of `feedStore` has one post with four comments; dora of `quietStore`
has no posts, and her profile costs no statement with an identifier list. -/
theorem getAccountName_counts_witness :
    (∃ posts commentCount me, getAccountName feedStore aliceSession "alice" =
        Response.execute (.user posts ⟨1, "alice", "x", 0, 0, 1⟩ 1 commentCount 4 me)) ∧
      (∃ commentCount me, getAccountName quietStore aliceSession "dora" =
        Response.execute (.user [] ⟨4, "dora", "w", 0, 0, 4⟩ 0 commentCount 0 me)) ∧
      ∀ st ∈ (getAccountNameTraced quietStore aliceSession "dora").2, st.idSet ≠ some [] := by
  obtain ⟨posts, cc, me, h, _⟩ := getAccountName_counts feedStore aliceSession "alice"
    ⟨1, "alice", "x", 0, 0, 1⟩ rfl (by decide)
  obtain ⟨posts2, cc2, me2, h2, _, hz, _, htr⟩ := getAccountName_counts quietStore aliceSession
    "dora" ⟨4, "dora", "w", 0, 0, 4⟩ rfl (by decide)
  refine ⟨⟨posts, cc, me, h⟩, ⟨cc2, me2, ?_⟩, htr⟩
  rw [h2, (hz (by decide)).1]
  rfl

theorem joinPostsUsers_restrictPosts (s : Store) (t : Time) :
    joinPostsUsers (restrictPosts s t) =
      (joinPostsUsers s).filter fun r => decide (r.1.created_at ≤ t) := by
  unfold joinPostsUsers restrictPosts
  simp only []
  induction s.posts with
  | nil => rfl
  | cons p l ih =>
    have hrow : ∀ (b : Bool) (hb : b = decide (p.created_at ≤ t)),
        (((s.users.filter fun u => decide (p.user_id = u.ID)).map fun u => (p, u)).filter
          fun r : PostRow × User => decide (r.1.created_at ≤ t)) =
        if b then (s.users.filter fun u => decide (p.user_id = u.ID)).map fun u => (p, u)
        else [] := by
      intro b hb
      rw [List.filter_map]
      by_cases hp : p.created_at ≤ t
      · have hb2 : b = true := by rw [hb]; exact decide_eq_true hp
        rw [hb2, if_pos rfl]
        congr 1
        rw [List.filter_eq_self]
        intro u _
        simpa using hp
      · have hb2 : b = false := by rw [hb]; exact decide_eq_false hp
        rw [hb2]
        simp only [Bool.false_eq_true, if_false, List.map_eq_nil_iff]
        rw [List.filter_eq_nil_iff]
        intro u _
        simpa using hp
    rw [List.map_cons, List.flatten_cons, List.filter_append, ← ih, hrow _ rfl]
    by_cases hp : p.created_at ≤ t
    · rw [List.filter_cons_of_pos (by simpa using hp), List.map_cons, List.flatten_cons,
        if_pos (decide_eq_true hp)]
    · rw [List.filter_cons_of_neg (by simpa using hp), if_neg (by simpa using hp)]
      rfl

theorem getLatestPosts_restrictPosts (s : Store) (t : Time) (limit : Int) :
    getLatestPosts (restrictPosts s t) limit = selectPostsBefore s t limit := by
  unfold getLatestPosts selectPostsBefore
  rw [joinPostsUsers_restrictPosts, List.filter_filter]
  have hf : (fun a : PostRow × User => decide (a.2.DelFlg = 0) && decide (a.1.created_at ≤ t)) =
      fun r => decide (r.1.created_at ≤ t) && decide (r.2.DelFlg = 0) := by
    funext a
    exact Bool.and_comm _ _
  rw [hf]

theorem fetchCommentsAndUsers_restrictPosts (s : Store) (t : Time) (postIDs : List Int)
    (limitPerPost : Int) :
    fetchCommentsAndUsers (restrictPosts s t) postIDs limitPerPost =
      fetchCommentsAndUsers s postIDs limitPerPost := rfl

theorem stampPosts_unstamped (m : GoMap (List Comment)) (csrfToken : String)
    (rows : List (PostRow × User)) :
    (stampPosts m csrfToken (rows.map scanPostUser)).map (fun p => { p with CSRFToken := "" }) =
      attachComments m (rows.map scanPostUser) := by
  unfold stampPosts attachComments
  rw [List.map_map, List.map_map, List.map_map]
  rfl

/-- The cursor feed is the latest feed over the store restricted by the cursor, except that
no view-model carries the CSRF token. -/
theorem getPosts_eq_getIndex_unstamped (s : Store) (sess : Session) (t : Time) :
    (getPosts s (.cursor t)).viewModels =
      (getIndex (restrictPosts s t) sess).1.viewModels.map
        (fun p => { p with CSRFToken := "" }) := by
  obtain ⟨rows, hsel⟩ : ∃ rows : List (PostRow × User),
      selectPostsBefore s t postsPerPage = .ok (rows.map scanPostUser) :=
    ⟨_, selectPostsBefore_natCast s t 20⟩
  obtain ⟨comments, users, h1, h2, h3⟩ := fetchCommentsAndUsers_fst s
    ((rows.map scanPostUser).map fun p : Post => p.ID) 3
  have hidx : (getIndex (restrictPosts s t) sess).1.viewModels =
      stampPosts (groupByPost (attachUsers (commentUserMap users) comments)) (getCSRFToken sess)
        (rows.map scanPostUser) := by
    unfold getIndex
    simp only []
    rw [getLatestPosts_restrictPosts, hsel]
    simp only []
    rw [fetchCommentsAndUsers_restrictPosts, h3]
    rfl
  have hposts : (getPosts s (.cursor t)).viewModels =
      attachComments (groupByPost (attachUsers (commentUserMap users) comments))
        (rows.map scanPostUser) := by
    unfold getPosts
    simp only []
    rw [hsel]
    simp only []
    rw [h1]
    simp only []
    rw [h2]
    simp only []
    split
    · rename_i hlen
      rw [List.length_eq_zero.1 hlen]
      rfl
    · rfl
  rw [hidx, hposts, stampPosts_unstamped]

/-- C13 at the failing input: for `feedStore`, alice's session (CSRF token `tok`) and the
cursor 12, `getPosts` renders posts 3 and 1 with the empty CSRF token, while `getIndex` over
the store restricted to creation times at most 12 renders the same posts stamped with `tok`;
the two lists differ, and differ in the token only. -/
theorem getPosts_csrf_token_unstamped :
    ((getPosts feedStore (.cursor 12)).viewModels.map fun p => (p.ID, p.CSRFToken)) =
        [(3, ""), (1, "")] ∧
      ((getIndex (restrictPosts feedStore 12) aliceSession).1.viewModels.map
        fun p => (p.ID, p.CSRFToken)) = [(3, "tok"), (1, "tok")] ∧
      (getPosts feedStore (.cursor 12)).viewModels ≠
        (getIndex (restrictPosts feedStore 12) aliceSession).1.viewModels ∧
      (getPosts feedStore (.cursor 12)).viewModels =
        (getIndex (restrictPosts feedStore 12) aliceSession).1.viewModels.map
          (fun p => { p with CSRFToken := "" }) := by
  decide

theorem canonicalExtension_eq_some (mime ext : String) (h : canonicalExtension mime = some ext) :
    (ext = "jpg" ∧ mime = "image/jpeg") ∨ (ext = "png" ∧ mime = "image/png") ∨
      (ext = "gif" ∧ mime = "image/gif") := by
  unfold canonicalExtension at h
  split at h
  · rename_i hm
    cases h
    exact Or.inl ⟨rfl, hm⟩
  · split at h
    · rename_i hm
      cases h
      exact Or.inr (Or.inl ⟨rfl, hm⟩)
    · split at h
      · rename_i hm
        cases h
        exact Or.inr (Or.inr ⟨rfl, hm⟩)
      · cases h

/-- The only write of `getImage`: it leaves the file store as it is, or it writes the inline
bytes of the post under the requested extension, which is then not the canonical extension of
the post's MIME type. -/
theorem getImage_writes_only_on_mismatch (s : Store) (pid : Int) (ext : String) :
    (getImage s (some pid) ext).2.files = s.files ∨
      ∃ row, row ∈ s.posts ∧ row.id = pid ∧ canonicalExtension row.mime ≠ some ext ∧
        (getImage s (some pid) ext).2.files = (writeFile s (imagePath pid ext) row.imgdata).files := by
  unfold getImage
  simp only []
  cases hrows : s.posts.filter fun p => decide (p.id = pid) with
  | nil => exact Or.inl rfl
  | cons row rest =>
    have hmem : row ∈ s.posts.filter fun p => decide (p.id = pid) := by
      rw [hrows]
      exact List.mem_cons_self row rest
    have hrow := List.mem_filter.1 hmem
    simp only [dbGet, scanPostAll]
    split
    · exact Or.inl rfl
    · rename_i hcond
      split
      · exact Or.inl rfl
      · exact Or.inr ⟨row, hrow.1, by simpa using hrow.2,
          fun hc => hcond (canonicalExtension_eq_some _ _ hc), rfl⟩

/-- C14 at the failing input: post 1 of `legacyStore` is a JPEG with inline bytes. A lookup
with the canonical extension `jpg` serves the bytes and writes no file; a lookup with the
extension `png` writes the inline bytes to `1.png`, a path under an extension that is not
the canonical one. -/
theorem getImage_writes_noncanonical :
    canonicalExtension "image/jpeg" = some "jpg" ∧
      (getImage legacyStore (some 1) "jpg").1 =
        ⟨200, some "image/jpeg", none, .bytes [7, 8, 9]⟩ ∧
      (getImage legacyStore (some 1) "jpg").2.files = [] ∧
      (getImage legacyStore (some 1) "png").2.files = [("../public/image/1.png", [7, 8, 9])] ∧
      imagePath 1 "png" = "../public/image/1.png" := by
  decide

end PrivateIsu
